import Mathlib

/-!
Verification development for the liquid flow simulation engine
(`tickLiquid` and its helpers in `server/block/liquid.go` of the
dragonfly repository).  The engine is embedded shallowly: the grid and
the block capability interfaces (which live outside the provided source
tree) are modelled from the specification, while every engine function
(`tickLiquid`, `source`, `sourceAround`, `spreadOutwards`, `flowInto`,
`calculateLiquidPaths`, `spreadNeighbour`, `canFlowInto`, `liquidNode`,
`liquidQueue`) is translated directly from the Go source.
-/

namespace LiquidSpec

/-- Modelled from the spec: an integer voxel position (x, y, z); the Go
`cube.Pos` array type is not part of the provided source. -/
structure Pos where
  x : Int
  y : Int
  z : Int
deriving DecidableEq, Repr

/-- A liquid value: fluid kind, depth, falling flag and the type-specific
spread decay constant.  Mirrors the `world.Liquid` interface data
(`LiquidType`, `LiquidDepth`, `LiquidFalling`, `SpreadDecay`). -/
structure Liquid where
  type : Nat
  depth : Int
  falling : Bool
  spreadDecay : Int
deriving DecidableEq, Repr

/-- Modelled from the spec: `withDepth(depth, falling)` produces the same
liquid with the given depth and falling flag (spec §3: "Liquids are value
types produced by withDepth(depth, falling)"); the concrete
implementations (`Water.WithDepth`, ...) are not part of the provided
source. -/
def Liquid.withDepth (l : Liquid) (d : Int) (f : Bool) : Liquid :=
  { l with depth := d, falling := f }

/-- Modelled from the spec: the capability surface of a liquid displacer
block (`world.LiquidDisplacer`): `CanDisplace` and `SideClosed`
(spec §6). -/
structure DisplacerProps where
  canDisplace : Liquid → Bool
  sideClosed : Pos → Pos → Bool

/-- Modelled from the spec: a closed enum of block variants exposing the
capability sets the engine dispatches on (liquid / displacer /
removable / breakable, spec §9); the concrete block registry is not part
of the provided source.  A `removable` block carries its
`HasLiquidDrops` flag and, when it implements `Breakable`, its drop
list. -/
inductive Block where
  | air
  | solid
  | liquid (l : Liquid)
  | removable (hasDrops : Bool) (breakInfo : Option (List Nat))
  | displacer (d : DisplacerProps)

/-- The Go type assertion `bl.(world.Liquid)`. -/
def Block.asLiquid : Block → Option Liquid
  | .liquid l => some l
  | _ => none

/-- The Go type assertion `bl.(world.LiquidDisplacer)`. -/
def Block.asDisplacer : Block → Option DisplacerProps
  | .displacer d => some d
  | _ => none

/-- The Go type assertion `bl.(Air)`. -/
def Block.isAir : Block → Bool
  | .air => true
  | _ => false

/-- The Go type assertion `bl.(LiquidRemovable)`: in the block registry,
air, liquids and the dedicated removable blocks implement
`LiquidRemovable`. -/
def Block.isLiquidRemovable : Block → Bool
  | .air => true
  | .liquid _ => true
  | .removable _ _ => true
  | _ => false

/-- `LiquidRemovable.HasLiquidDrops` (false for air and liquids). -/
def Block.hasLiquidDrops : Block → Bool
  | .removable h _ => h
  | _ => false

/-- The Go type assertion `existing.(Breakable)` together with
`BreakInfo().Drops`. -/
def Block.breakDrops : Block → Option (List Nat)
  | .removable _ bi => bi
  | _ => none

/-- Modelled from the spec: the grid's vertical extent (spec §6,
"bounded by the grid's vertical extent"). -/
structure VRange where
  min : Int
  max : Int

/-- Modelled from the spec: the read/write view of the voxel grid
(spec §6): a block per position, an optional extra liquid held inside a
displacer (the second storage layer), the vertical extent, plus the
observable side-effect logs for dropped items and hardening reactions.
The grid/transaction layer is an external collaborator not in the
provided source. -/
structure World where
  blockAt : Pos → Block
  layer1 : Pos → Option Liquid
  range : VRange
  dropped : List (Pos × Nat)
  hardened : List (Pos × Nat)

/-- Modelled from the spec: `liquid-at(pos)` (spec §6); the liquid at a
position is the block itself when the block is a liquid, else the liquid
stored inside a displacer there. -/
def World.liquid (w : World) (p : Pos) : Option Liquid :=
  match w.blockAt p with
  | .liquid l => some l
  | _ => w.layer1 p

/-- Modelled from the spec: `set-liquid(pos, Liquid|absent)` (spec §6).
Removing a liquid empties the cell; writing one stores it inside a
displacer block when one occupies the cell and replaces the block
otherwise. -/
def World.setLiquid (w : World) (p : Pos) (l : Option Liquid) : World :=
  match l with
  | none =>
    { w with
      blockAt := fun q =>
        if q = p then
          match w.blockAt p with
          | .liquid _ => Block.air
          | bl => bl
        else w.blockAt q,
      layer1 := fun q => if q = p then none else w.layer1 q }
  | some liq =>
    match w.blockAt p with
    | .displacer _ =>
      { w with layer1 := fun q => if q = p then some liq else w.layer1 q }
    | _ =>
      { w with
        blockAt := fun q => if q = p then Block.liquid liq else w.blockAt q,
        layer1 := fun q => if q = p then none else w.layer1 q }

/-- Modelled from the spec: `tx.SetBlock(pos, nil, nil)`, which clears
the block at the position. -/
def World.setBlockAir (w : World) (p : Pos) : World :=
  { w with blockAt := fun q => if q = p then Block.air else w.blockAt q }

/-- Modelled from the spec: `dropItem` records a dropped item at a
position. -/
def World.dropItem (w : World) (p : Pos) (it : Nat) : World :=
  { w with dropped := w.dropped ++ [(p, it)] }

/-- Modelled from the spec: `Liquid.Harden` triggers the liquid's
type-specific hardening reaction (spec §4.4, glossary); recorded as an
observable event. -/
def Liquid.harden (l : Liquid) (p : Pos) (w : World) : World :=
  { w with hardened := w.hardened ++ [(p, l.type)] }

/-- Modelled from the spec: the cancellable interaction hooks
`HandleLiquidDecay` and `HandleLiquidFlow` (spec §6); each returns
whether the proposed mutation was cancelled. -/
structure Handler where
  decayCancelled : Pos → Liquid → Option Liquid → Bool
  flowCancelled : Pos → Pos → Liquid → Block → Bool

/-- The handler that cancels nothing. -/
def Handler.none : Handler := ⟨fun _ _ _ => false, fun _ _ _ _ => false⟩

/-- The position directly below (`pos.Side(cube.FaceDown)`). -/
def Pos.below (p : Pos) : Pos := ⟨p.x, p.y - 1, p.z⟩

/-- Modelled from the spec: iteration over the six axis-aligned
neighbours of a position, the vertical ones bounded by the grid's
vertical extent (spec §6). -/
def neighbours (p : Pos) (r : VRange) : List Pos :=
  [⟨p.x + 1, p.y, p.z⟩, ⟨p.x - 1, p.y, p.z⟩]
    ++ (if p.y + 1 ≤ r.max then [⟨p.x, p.y + 1, p.z⟩] else [])
    ++ (if r.min ≤ p.y - 1 then [⟨p.x, p.y - 1, p.z⟩] else [])
    ++ [⟨p.x, p.y, p.z + 1⟩, ⟨p.x, p.y, p.z - 1⟩]

/-- The four horizontal neighbours (the `neighbour[1] == pos[1]` filter
of `spreadOutwards`). -/
def horizontalNeighbours (p : Pos) : List Pos :=
  [⟨p.x + 1, p.y, p.z⟩, ⟨p.x - 1, p.y, p.z⟩, ⟨p.x, p.y, p.z + 1⟩, ⟨p.x, p.y, p.z - 1⟩]

/-- `source` checks if a liquid is a source block
(`LiquidDepth() == 8 && !LiquidFalling()`). -/
def source (b : Liquid) : Bool :=
  b.depth == 8 && !b.falling

/-- `canFlowInto` checks if a liquid can flow into the block present in
the world at a specific block position. -/
def canFlowInto (b : Liquid) (w : World) (pos : Pos) (sideways : Bool) : Bool :=
  let bl := w.blockAt pos
  if bl.isAir then true
  else if bl.isLiquidRemovable then
    match bl.asLiquid with
    | some liq =>
      if sideways && ((liq.depth == 8 && !liq.falling) || liq.type != b.type) then false
      else true
    | none => true
  else
    match bl.asDisplacer with
    | some dis => dis.canDisplace (b.withDepth (b.depth - b.spreadDecay) (!sideways))
    | none => false

/-- The displacer occupying a position, when there is one
(`tx.Block(pos).(world.LiquidDisplacer)`). -/
def displacerAt (w : World) (p : Pos) : Option DisplacerProps :=
  (w.blockAt p).asDisplacer

/-- `displacer == nil || !displacer.SideClosed(from, to)` negated: the
interface is closed by the optional displacer. -/
def sideClosedOpt (d : Option DisplacerProps) (p q : Pos) : Bool :=
  match d with
  | some dis => dis.sideClosed p q
  | none => false

/-- `sourceAround` checks if there is a source in the blocks around the
position passed. -/
def sourceAround (b : Liquid) (pos : Pos) (w : World) : Bool :=
  (neighbours pos w.range).any fun n =>
    if n.y = pos.y - 1 then false
    else
      match w.liquid n with
      | none => false
      | some side =>
        if side.type != b.type then false
        else if sideClosedOpt (displacerAt w n) n pos then false
        else decide (n.y = pos.y + 1) || source side || decide (b.depth < side.depth)

/-- `flowInto` makes the liquid passed flow into the position passed in
a world.  Fatal panics are modelled with `Except.error`; the returned
pair is the Go boolean result together with the updated world. -/
def flowInto (h : Handler) (b : Liquid) (src pos : Pos) (w : World) (falling : Bool) :
    Except String (Bool × World) :=
  let newDepth := if falling then b.depth else b.depth - b.spreadDecay
  if newDepth ≤ 0 ∧ falling = false then .ok (false, w)
  else
    let existing := w.blockAt pos
    match existing.asLiquid with
    | some existingLiquid =>
      if existingLiquid.type = b.type then
        if newDepth ≤ existingLiquid.depth ∨ existingLiquid.falling = true then .ok (true, w)
        else if h.flowCancelled src pos (b.withDepth newDepth falling) existing then .ok (false, w)
        else .ok (true, w.setLiquid pos (some (b.withDepth newDepth falling)))
      else .ok (false, existingLiquid.harden pos w)
    | none =>
      let isDisplacer := existing.asDisplacer.isSome
      if isDisplacer ∧ (w.liquid pos).isSome then .ok (false, w)
      else if existing.isLiquidRemovable = false ∧
          (match existing.asDisplacer with
           | some dis => dis.canDisplace (b.withDepth newDepth falling)
           | none => false) = false then .ok (false, w)
      else if h.flowCancelled src pos (b.withDepth newDepth falling) existing then .ok (false, w)
      else
        let destroyed : Except String World :=
          if existing.isLiquidRemovable then
            let w1 := if existing.isAir then w else w.setBlockAir pos
            if existing.hasLiquidDrops then
              match existing.breakDrops with
              | some drops => .ok (drops.foldl (fun wa it => wa.dropItem pos it) w1)
              | none => .error "liquid drops should always implement breakable"
            else .ok w1
          else .ok w
        destroyed.bind fun w2 =>
          .ok (true, w2.setLiquid pos (some (b.withDepth newDepth falling)))

/-- `spreadOutwards` spreads the liquid outwards into the horizontal
directions. -/
def spreadOutwards (h : Handler) (b : Liquid) (pos : Pos) (w : World)
    (displacer : Option DisplacerProps) : Except String World :=
  (horizontalNeighbours pos).foldlM
    (fun wa n =>
      if sideClosedOpt displacer pos n then .ok wa
      else (flowInto h b pos n wa false).map Prod.snd)
    w

/-- `liquidPath` represents a path to an empty lower block or a block
that can be flown into by a liquid. -/
def liquidPath := List Pos

/-- `liquidNode` represents a position that is part of a flow path for a
liquid: horizontal coordinates, remaining depth and the node it was
expanded from (`previous` is nil exactly for the seed node). -/
inductive liquidNode where
  | root (x z : Int) (depth : Int)
  | step (x z : Int) (depth : Int) (previous : liquidNode)

/-- The node's x coordinate. -/
def liquidNode.x : liquidNode → Int
  | .root x _ _ => x
  | .step x _ _ _ => x

/-- The node's z coordinate. -/
def liquidNode.z : liquidNode → Int
  | .root _ z _ => z
  | .step _ z _ _ => z

/-- The node's remaining depth. -/
def liquidNode.depth : liquidNode → Int
  | .root _ _ d => d
  | .step _ _ d _ => d

/-- `Len` returns the length of the path created by the node (the number
of `previous` links). -/
def liquidNode.Len : liquidNode → Nat
  | .root _ _ _ => 0
  | .step _ _ _ prev => prev.Len + 1

/-- `neighbours` returns the four horizontal neighbours of the node with
decreased depth, each holding the node it was expanded from. -/
def liquidNode.neighbours (node : liquidNode) (decay2 : Int) :
    liquidNode × liquidNode × liquidNode × liquidNode :=
  (.step (node.x - 1) node.z (node.depth - decay2) node,
   .step (node.x + 1) node.z (node.depth - decay2) node,
   .step node.x (node.z - 1) (node.depth - decay2) node,
   .step node.x (node.z + 1) (node.depth - decay2) node)

/-- `Path` converts the liquid node into a path: the positions after the
seed, in order, ending at the node itself. -/
def liquidNode.Path (src : Pos) : liquidNode → List Pos
  | .root _ _ _ => []
  | .step x z _ prev => liquidNode.Path src prev ++ [⟨x, src.y, z⟩]

/-- `liquidQueue` is a queue of path nodes: a node buffer, a read
cursor, and the shortest terminal path length found so far (initially
`math.MaxInt8 = 127`). -/
structure liquidQueue where
  nodes : List liquidNode
  i : Nat
  shortestPath : Nat

/-- A freshly allocated queue, as produced by the pool's `New`. -/
def liquidQueue.fresh : liquidQueue := ⟨[], 0, 127⟩

/-- `PushBack` appends a node. -/
def liquidQueue.PushBack (q : liquidQueue) (node : liquidNode) : liquidQueue :=
  { q with nodes := q.nodes ++ [node] }

/-- `Front` reads the node at the cursor and advances the cursor. -/
def liquidQueue.FrontPop (q : liquidQueue) : liquidNode × liquidQueue :=
  (q.nodes.getD q.i (.root 0 0 0), { q with i := q.i + 1 })

/-- `Len` is the number of nodes not yet taken out. -/
def liquidQueue.Len (q : liquidQueue) : Nat := q.nodes.length - q.i

/-- `Reset`: nodes cleared, cursor zeroed, shortest-path bound restored
to the initial sentinel. -/
def liquidQueue.Reset (_ : liquidQueue) : liquidQueue := ⟨[], 0, 127⟩

/-- The pending nodes of a queue (pushed but not yet popped). -/
def liquidQueue.pending (q : liquidQueue) : List liquidNode := q.nodes.drop q.i

/-- `spreadNeighbour` attempts to spread a path node into the neighbour
passed; `true` means the neighbour is a terminal of a discovered path,
and a non-terminal neighbour that can be flowed into is enqueued. -/
def spreadNeighbour (b : Liquid) (src : Pos) (w : World) (node : liquidNode)
    (queue : liquidQueue) : Bool × liquidQueue :=
  if node.depth + 3 ≤ 0 then (false, queue)
  else if queue.shortestPath < node.Len then (false, queue)
  else if canFlowInto b w ⟨node.x, src.y, node.z⟩ true = false then (false, queue)
  else if canFlowInto b w ⟨node.x, src.y - 1, node.z⟩ false then (true, queue)
  else (false, queue.PushBack node)

/-- One neighbour's share of a search iteration: the side-closed gate on
the very first expansion, `spreadNeighbour`, and on a terminal the
shortest-path bound update and path recording. -/
def processNeighbour (b : Liquid) (pos : Pos) (w : World)
    (displacer : Option DisplacerProps) (first : Bool) (n : liquidNode) :
    liquidQueue × List (List Pos) → liquidQueue × List (List Pos) :=
  fun st =>
    if first ∧ sideClosedOpt displacer pos ⟨n.x, pos.y, n.z⟩ then st
    else
      match spreadNeighbour b pos w n st.1 with
      | (true, q) => ({ q with shortestPath := n.Len }, st.2 ++ [n.Path pos])
      | (false, q) => (q, st.2)

/-- The state of one path search: the node queue, the discovered paths,
and whether the next expansion is the first one. -/
structure CalcSt where
  queue : liquidQueue
  paths : List (List Pos)
  first : Bool

/-- One iteration of the search loop: pop the front node and process its
four horizontal neighbours. -/
def calcStep (b : Liquid) (pos : Pos) (w : World)
    (displacer : Option DisplacerProps) (st : CalcSt) : CalcSt :=
  let (node, q1) := st.queue.FrontPop
  let (na, nb, nc, nd) := node.neighbours (b.spreadDecay * 2)
  let s :=
    processNeighbour b pos w displacer st.first nd
      (processNeighbour b pos w displacer st.first nc
        (processNeighbour b pos w displacer st.first nb
          (processNeighbour b pos w displacer st.first na (q1, st.paths))))
  ⟨s.1, s.2, false⟩

/-- The search loop, with explicit fuel: it runs until the queue is
exhausted (the fuel is proved sufficient for the engine's data model in
the termination theorem below). -/
def calcLoop (b : Liquid) (pos : Pos) (w : World)
    (displacer : Option DisplacerProps) : Nat → CalcSt → CalcSt
  | 0, st => st
  | fuel + 1, st =>
    if st.queue.Len = 0 then st
    else calcLoop b pos w displacer fuel (calcStep b pos w displacer st)

/-- Fuel bound for the search loop; proved sufficient for liquids of the
data model (depth at most 8, positive spread decay). -/
def calcFuel : Nat := 4 ^ 12

/-- `calculateLiquidPaths` starting from an explicit queue instance (the
instance checked out of the pool): seed the queue with the source
position and run the loop. -/
def calculateLiquidPathsFrom (q0 : liquidQueue) (b : Liquid) (pos : Pos) (w : World)
    (displacer : Option DisplacerProps) : CalcSt :=
  calcLoop b pos w displacer calcFuel
    ⟨q0.PushBack (.root pos.x pos.z b.depth), [], true⟩

/-- `calculateLiquidPaths` calculates paths in the world that the liquid
passed can flow in to reach lower grounds, starting at the position
passed. -/
def calculateLiquidPaths (b : Liquid) (pos : Pos) (w : World)
    (displacer : Option DisplacerProps) : List (List Pos) :=
  (calculateLiquidPathsFrom liquidQueue.fresh b pos w displacer).paths

/-- The path-flood segment of `tickLiquid`: flow into the first step of
every path no longer than the first one. -/
def floodPaths (h : Handler) (b : Liquid) (pos : Pos) (paths : List (List Pos))
    (w : World) : Except String World :=
  match paths with
  | [] => .ok w
  | p0 :: _ =>
    paths.foldlM
      (fun wa p =>
        if p.length ≤ p0.length then
          match p with
          | [] => .ok wa
          | q :: _ => (flowInto h b pos q wa false).map Prod.snd
        else .ok wa)
      w

/-- `tickLiquid` ticks the liquid block passed at a specific position in
the world. -/
def tickLiquid (h : Handler) (b : Liquid) (pos : Pos) (w : World) :
    Except String World :=
  if source b = false ∧ sourceAround b pos w = false then
    let res : Option Liquid :=
      if 4 < b.depth then some (b.withDepth (b.depth - 2 * b.spreadDecay) false)
      else none
    if h.decayCancelled pos b res then .ok w
    else .ok (w.setLiquid pos res)
  else
    let displacer := displacerAt w pos
    let canFlowBelow := canFlowInto b w pos.below false
    let b1 := if b.falling ∧ canFlowBelow = false then b.withDepth 8 true else b
    let vert : Except String World :=
      if canFlowBelow ∧ sideClosedOpt displacer pos pos.below = false then
        (flowInto h (b.withDepth 8 true) pos pos.below w true).map Prod.snd
      else .ok w
    vert.bind fun w1 =>
      if b1.depth ≤ b1.spreadDecay then .ok w1
      else if source b1 ∨ canFlowBelow = false then
        let paths := calculateLiquidPaths b1 pos w1 displacer
        match paths with
        | [] => spreadOutwards h b1 pos w1 displacer
        | _ :: _ => floodPaths h b1 pos paths w1
      else .ok w1

/-! ## Concrete fixtures -/

/-- A water-like test liquid: type 0, spread decay 1. -/
def water (d : Int) (f : Bool) : Liquid := ⟨0, d, f, 1⟩

/-- A lava-like test liquid: type 1, spread decay 2. -/
def lava (d : Int) (f : Bool) : Liquid := ⟨1, d, f, 2⟩

/-- A world holding a single isolated block at the origin, air elsewhere. -/
def isolatedWorld (bl : Block) : World :=
  { blockAt := fun p => if p = ⟨0, 0, 0⟩ then bl else .air,
    layer1 := fun _ => none,
    range := ⟨-64, 64⟩,
    dropped := [], hardened := [] }

/-! ## Claim C1: decay of a non-sustained liquid -/

/-- C1 (amended): for every non-sustained liquid the tick computes
`decayed = depth - 2*spreadDecay`, but the update is guarded by
`depth - 4 > 0` (not by `decayed > 0`): when `depth - 4 > 0` the cell is
set to the decayed depth with `falling = false`, otherwise the liquid is
removed (the zero/absent state); whenever `2*spreadDecay ≤ 4` the depth
stored by the update is at least 1, so it is never negative. -/
theorem c1_decay_guard (h : Handler) (b : Liquid) (pos : Pos) (w : World)
    (hsrc : source b = false) (hfed : sourceAround b pos w = false)
    (hnc : h.decayCancelled pos b
      (if 4 < b.depth then some (b.withDepth (b.depth - 2 * b.spreadDecay) false)
       else none) = false) :
    tickLiquid h b pos w =
      .ok (w.setLiquid pos
        (if 4 < b.depth then some (b.withDepth (b.depth - 2 * b.spreadDecay) false)
         else none))
    ∧ (b.spreadDecay ≤ 2 → 4 < b.depth → 1 ≤ b.depth - 2 * b.spreadDecay) := by
  refine ⟨?_, fun h1 h2 => by omega⟩
  unfold tickLiquid
  simp [hsrc, hfed, hnc]

/-- C1 counterexample: an isolated (non-sustained) flowing liquid of
depth 3 with spread decay 1 has `decayed = 3 - 2*1 = 1 > 0`, so the
claim as stated requires the cell to be updated to depth 1; the code
instead removes the liquid, because its guard is `depth - 4 > 0`. -/
theorem c1_counterexample :
    source (water 3 false) = false
    ∧ sourceAround (water 3 false) ⟨0, 0, 0⟩ (isolatedWorld (.liquid (water 3 false))) = false
    ∧ (0 : Int) < 3 - 2 * 1
    ∧ (tickLiquid Handler.none (water 3 false) ⟨0, 0, 0⟩
        (isolatedWorld (.liquid (water 3 false)))).toOption.map
        (fun w => w.liquid ⟨0, 0, 0⟩) = some none := by
  decide

/-- C1 witness: the amended theorem applied to an isolated depth-5
liquid with spread decay 1, which the tick updates to depth 3. -/
theorem c1_witness :
    source (water 5 false) = false
    ∧ sourceAround (water 5 false) ⟨0, 0, 0⟩ (isolatedWorld (.liquid (water 5 false))) = false
    ∧ (tickLiquid Handler.none (water 5 false) ⟨0, 0, 0⟩
          (isolatedWorld (.liquid (water 5 false))) =
        .ok ((isolatedWorld (.liquid (water 5 false))).setLiquid ⟨0, 0, 0⟩
          (if 0 < (water 5 false).depth - 4 then
            some ((water 5 false).withDepth ((water 5 false).depth - 2 * (water 5 false).spreadDecay) false)
           else none))
        ∧ ((water 5 false).spreadDecay ≤ 2 → 0 < (water 5 false).depth - 4 →
            1 ≤ (water 5 false).depth - 2 * (water 5 false).spreadDecay)) :=
  ⟨by decide, by decide,
    c1_decay_guard Handler.none (water 5 false) ⟨0, 0, 0⟩
      (isolatedWorld (.liquid (water 5 false))) (by decide) (by decide) (by decide)⟩

/-! ## Claim C8: queue reset restores the fresh state -/

/-- C8: a search queue after `Reset` (nodes cleared, cursor zeroed,
shortest-path bound restored to the initial sentinel) is identical to a
freshly allocated queue, and a path search run from the reused queue
returns the same result as the same search run from a fresh queue. -/
theorem c8_reset_indistinguishable (q : liquidQueue) (b : Liquid) (pos : Pos)
    (w : World) (displacer : Option DisplacerProps) :
    q.Reset = liquidQueue.fresh
    ∧ calculateLiquidPathsFrom q.Reset b pos w displacer =
        calculateLiquidPathsFrom liquidQueue.fresh b pos w displacer :=
  ⟨rfl, rfl⟩

/-! ## Claim C2: vertical flow priority -/

/-- Binding an `Except` into its own `ok` constructor is the identity. -/
theorem exceptBindOk {ε α : Type} (x : Except ε α) :
    x.bind (fun a => Except.ok a) = x := by
  cases x <;> rfl

/-- C2 (amended): for every sustained liquid that is not itself a source
whose cell below can receive flow (and whose own cell's displacer, if
any, does not close the downward interface), the tick performs exactly
the vertical flow into the cell below and nothing else — in particular
no horizontal spread happens that tick.  (A source with an open drop
below performs the vertical flow and additionally runs the horizontal
spread, so the claim's "no horizontal spread" does not extend to
sources.) -/
theorem c2_vertical_no_spread_nonsource (h : Handler) (b : Liquid) (pos : Pos)
    (w : World) (hnsrc : source b = false) (hfed : sourceAround b pos w = true)
    (hbelow : canFlowInto b w pos.below false = true)
    (hopen : sideClosedOpt (displacerAt w pos) pos pos.below = false) :
    tickLiquid h b pos w =
      (flowInto h (b.withDepth 8 true) pos pos.below w true).map Prod.snd := by
  unfold tickLiquid
  simp only [hnsrc, hfed, hbelow, hopen, Bool.false_eq_true, and_false, false_and,
    if_false, and_true, if_true, ite_self, Bool.true_eq_false, false_or]
  exact exceptBindOk _

/-- A source inside solid walls at horizontal distance 2, over a solid
floor with a single opening directly below the source. -/
def c2World : World :=
  { blockAt := fun p =>
      if p = ⟨0, 0, 0⟩ then .liquid (water 8 false)
      else if p.y = 0 ∧ -2 < p.x ∧ p.x < 2 ∧ -2 < p.z ∧ p.z < 2 then .air
      else if p = ⟨0, -1, 0⟩ then .air
      else .solid,
    layer1 := fun _ => none,
    range := ⟨-64, 64⟩,
    dropped := [], hardened := [] }

/-- C2 counterexample: for a source over an open drop, vertical flow
does put a full-depth falling liquid below, but the horizontal
neighbours do not stay unchanged: the source also spreads sideways in
the same tick (the spread branch runs whenever the liquid is a source,
even with an open drop below). -/
theorem c2_counterexample :
    canFlowInto (water 8 false) c2World (Pos.below ⟨0, 0, 0⟩) false = true
    ∧ source (water 8 false) = true
    ∧ c2World.liquid ⟨1, 0, 0⟩ = none
    ∧ (tickLiquid Handler.none (water 8 false) ⟨0, 0, 0⟩ c2World).toOption.map
        (fun w => (w.liquid ⟨0, -1, 0⟩, w.liquid ⟨1, 0, 0⟩)) =
      some (some (water 8 true), some (water 7 false)) := by
  set_option maxRecDepth 100000 in decide

/-- A non-source depth-7 liquid at the origin, fed by a source on its
east side, with an open cell below it. -/
def c2WitnessWorld : World :=
  { blockAt := fun p =>
      if p = ⟨0, 0, 0⟩ then .liquid (water 7 false)
      else if p = ⟨1, 0, 0⟩ then .liquid (water 8 false)
      else .air,
    layer1 := fun _ => none,
    range := ⟨-64, 64⟩,
    dropped := [], hardened := [] }

/-- C2 witness: the amended theorem applied to a fed non-source liquid
over an open drop; the tick is exactly the vertical flow. -/
theorem c2_witness :
    source (water 7 false) = false
    ∧ sourceAround (water 7 false) ⟨0, 0, 0⟩ c2WitnessWorld = true
    ∧ canFlowInto (water 7 false) c2WitnessWorld (Pos.below ⟨0, 0, 0⟩) false = true
    ∧ tickLiquid Handler.none (water 7 false) ⟨0, 0, 0⟩ c2WitnessWorld =
        (flowInto Handler.none ((water 7 false).withDepth 8 true) ⟨0, 0, 0⟩
          (Pos.below ⟨0, 0, 0⟩) c2WitnessWorld true).map Prod.snd :=
  ⟨by decide, by decide, by decide,
    c2_vertical_no_spread_nonsource Handler.none (water 7 false) ⟨0, 0, 0⟩
      c2WitnessWorld (by decide) (by decide) (by decide) (by decide)⟩

/-! ## Claim C4: the feeding (sustaining) predicate -/

/-- The feeding predicate as the claim words it: the interface must not
be reported closed by a displacer on either side (both the neighbour's
displacer and a displacer at the liquid's own cell are consulted).
Stated from the spec's words for comparison with `sourceAround`. -/
def fedBySourceSpec (b : Liquid) (pos : Pos) (w : World) : Bool :=
  (neighbours pos w.range).any fun n =>
    if n.y = pos.y - 1 then false
    else
      match w.liquid n with
      | none => false
      | some side =>
        if side.type != b.type then false
        else if sideClosedOpt (displacerAt w n) n pos
            || sideClosedOpt (displacerAt w pos) pos n then false
        else decide (n.y = pos.y + 1) || source side || decide (b.depth < side.depth)

/-- C4 (amended): a horizontal or upper neighbour counts as feeding iff
it holds a liquid of the same type, is directly above or a source or
strictly deeper, and a displacer at the *neighbour's* cell does not
report the side toward the liquid closed; a displacer at the liquid's
own cell is never consulted. -/
theorem c4_feeding_iff (b : Liquid) (pos : Pos) (w : World) :
    sourceAround b pos w = true ↔
      ∃ n ∈ neighbours pos w.range, n.y ≠ pos.y - 1 ∧
        ∃ side, w.liquid n = some side ∧ side.type = b.type ∧
          sideClosedOpt (displacerAt w n) n pos = false ∧
          (n.y = pos.y + 1 ∨ source side = true ∨ b.depth < side.depth) := by
  unfold sourceAround
  rw [List.any_eq_true]
  apply exists_congr
  intro n
  apply and_congr_right
  intro _
  by_cases hy : n.y = pos.y - 1
  · simp [hy]
  · simp only [hy, if_false, ne_eq, not_false_eq_true, true_and]
    cases hliq : w.liquid n with
    | none => simp
    | some side =>
      by_cases hty : side.type = b.type
      · by_cases hcl : sideClosedOpt (displacerAt w n) n pos = true
        · simp [hty, hcl]
        · simp only [Bool.not_eq_true] at hcl
          simp [hty, hcl, Bool.or_eq_true, decide_eq_true_iff, or_assoc]
      · simp [bne_iff_ne, hty]

/-- A liquid held inside a displacer at the origin that closes every
interface; the neighbouring cell to the east holds a same-type source
with no displacer of its own. -/
def c4World : World :=
  { blockAt := fun p =>
      if p = ⟨0, 0, 0⟩ then .displacer ⟨fun _ => true, fun _ _ => true⟩
      else if p = ⟨1, 0, 0⟩ then .liquid (water 8 false)
      else .air,
    layer1 := fun p => if p = ⟨0, 0, 0⟩ then some (water 3 false) else none,
    range := ⟨-64, 64⟩,
    dropped := [], hardened := [] }

/-- C4 counterexample: with a displacer at the liquid's own cell that
reports every interface closed, the claim ("closed by a displacer on
either side of the interface") says the neighbouring source does not
feed the liquid, but `sourceAround` reports it as feeding: the code only
consults a displacer at the neighbour. -/
theorem c4_counterexample :
    sourceAround (water 3 false) ⟨0, 0, 0⟩ c4World = true
    ∧ fedBySourceSpec (water 3 false) ⟨0, 0, 0⟩ c4World = false
    ∧ sideClosedOpt (displacerAt c4World ⟨0, 0, 0⟩) ⟨0, 0, 0⟩ ⟨1, 0, 0⟩ = true := by
  decide

/-! ## Structural lemmas about the grid operations -/

/-- Setting a liquid leaves the block at every other position unchanged. -/
theorem setLiquid_blockAt_ne (w : World) (p : Pos) (l : Option Liquid) (q : Pos)
    (hq : q ≠ p) : (w.setLiquid p l).blockAt q = w.blockAt q := by
  unfold World.setLiquid
  cases l with
  | none => simp [hq]
  | some v => cases hbl : w.blockAt p <;> simp [hq]

/-- Setting a liquid leaves the liquid at every other position unchanged. -/
theorem setLiquid_liquid_ne (w : World) (p : Pos) (l : Option Liquid) (q : Pos)
    (hq : q ≠ p) : (w.setLiquid p l).liquid q = w.liquid q := by
  unfold World.liquid
  rw [setLiquid_blockAt_ne w p l q hq]
  cases w.blockAt q <;>
    first
    | rfl
    | · show (w.setLiquid p l).layer1 q = w.layer1 q
        unfold World.setLiquid
        cases l with
        | none => simp [hq]
        | some v => cases hbl : w.blockAt p <;> simp [hq]

/-- Writing a liquid makes it the liquid visible at that position. -/
theorem setLiquid_liquid_eq (w : World) (p : Pos) (v : Liquid) :
    (w.setLiquid p (some v)).liquid p = some v := by
  unfold World.setLiquid World.liquid
  cases hbl : w.blockAt p <;> simp [hbl]

/-- Clearing a block leaves other positions' blocks unchanged. -/
theorem setBlockAir_blockAt_ne (w : World) (p : Pos) (q : Pos) (hq : q ≠ p) :
    (w.setBlockAir p).blockAt q = w.blockAt q := by
  unfold World.setBlockAir
  simp [hq]

/-- Clearing a block leaves other positions' liquids unchanged. -/
theorem setBlockAir_liquid_ne (w : World) (p : Pos) (q : Pos) (hq : q ≠ p) :
    (w.setBlockAir p).liquid q = w.liquid q := by
  unfold World.liquid
  rw [setBlockAir_blockAt_ne w p q hq]
  cases w.blockAt q <;> rfl

/-- Recording a dropped item changes no block. -/
theorem dropItem_blockAt (w : World) (p : Pos) (it : Nat) :
    (w.dropItem p it).blockAt = w.blockAt := rfl

/-- Recording a dropped item changes no liquid. -/
theorem dropItem_liquid (w : World) (p : Pos) (it : Nat) :
    (w.dropItem p it).liquid = w.liquid := rfl

/-- The hardening reaction changes no block. -/
theorem harden_blockAt (l : Liquid) (p : Pos) (w : World) :
    (l.harden p w).blockAt = w.blockAt := rfl

/-- The hardening reaction changes no liquid. -/
theorem harden_liquid (l : Liquid) (p : Pos) (w : World) :
    (l.harden p w).liquid = w.liquid := rfl

/-- A fold of item drops changes no block and no liquid. -/
theorem dropFold_blockAt (ds : List Nat) (p : Pos) (w : World) :
    (ds.foldl (fun wa it => wa.dropItem p it) w).blockAt = w.blockAt ∧
    (ds.foldl (fun wa it => wa.dropItem p it) w).liquid = w.liquid := by
  induction ds generalizing w with
  | nil => exact ⟨rfl, rfl⟩
  | cons d ds ih => simpa using ih (w.dropItem p d)

/-- A fold of item drops keeps the displacer liquid layer. -/
theorem dropFold_layer1 (ds : List Nat) (p : Pos) (w : World) :
    (ds.foldl (fun wa it => wa.dropItem p it) w).layer1 = w.layer1 := by
  induction ds generalizing w with
  | nil => rfl
  | cons d ds ih => simpa using ih (w.dropItem p d)

/-- Two worlds agreeing on the block and the displacer layer at a
position agree on the liquid there. -/
theorem liquid_eq_of (w1 w2 : World) (q : Pos) (hb : w1.blockAt q = w2.blockAt q)
    (hl : w1.layer1 q = w2.layer1 q) : w1.liquid q = w2.liquid q := by
  unfold World.liquid
  rw [hb, hl]

/-- Case analysis on a successful `flowInto`: either the grid contents
are untouched (failure, no-op success, cancellation or hardening — only
the logs may change), or the candidate liquid `b.withDepth newDepth
falling` is written at the target over a world that differs from the
input at most by the target block having been cleared, and the depth
guard was passed. -/
theorem flowInto_master (h : Handler) (b : Liquid) (src pos : Pos) (w : World)
    (falling : Bool) (r : Bool) (w' : World)
    (hok : flowInto h b src pos w falling = .ok (r, w')) :
    (w'.blockAt = w.blockAt ∧ w'.layer1 = w.layer1) ∨
    (∃ w2 : World,
      (w2.blockAt = w.blockAt ∨ w2.blockAt = (w.setBlockAir pos).blockAt)
      ∧ w2.layer1 = w.layer1
      ∧ w' = w2.setLiquid pos
          (some (b.withDepth (if falling then b.depth else b.depth - b.spreadDecay) falling))
      ∧ ¬((if falling then b.depth else b.depth - b.spreadDecay) ≤ 0 ∧ falling = false)) := by
  simp only [flowInto] at hok
  by_cases hg : (if falling then b.depth else b.depth - b.spreadDecay) ≤ 0 ∧ falling = false
  · rw [if_pos hg] at hok
    simp only [Except.ok.injEq, Prod.mk.injEq] at hok
    rw [← hok.2]
    exact Or.inl ⟨rfl, rfl⟩
  · rw [if_neg hg] at hok
    cases hbl : w.blockAt pos with
    | liquid ex =>
      rw [hbl] at hok
      simp only [Block.asLiquid] at hok
      by_cases hty : ex.type = b.type
      · rw [if_pos hty] at hok
        by_cases hsat : (if falling then b.depth else b.depth - b.spreadDecay) ≤ ex.depth
            ∨ ex.falling = true
        · rw [if_pos hsat] at hok
          simp only [Except.ok.injEq, Prod.mk.injEq] at hok
          rw [← hok.2]
          exact Or.inl ⟨rfl, rfl⟩
        · rw [if_neg hsat] at hok
          by_cases hc : h.flowCancelled src pos
              (b.withDepth (if falling then b.depth else b.depth - b.spreadDecay) falling)
              (Block.liquid ex) = true
          · rw [if_pos hc] at hok
            simp only [Except.ok.injEq, Prod.mk.injEq] at hok
            rw [← hok.2]
            exact Or.inl ⟨rfl, rfl⟩
          · rw [if_neg hc] at hok
            simp only [Except.ok.injEq, Prod.mk.injEq] at hok
            exact Or.inr ⟨w, Or.inl rfl, rfl, hok.2.symm, hg⟩
      · rw [if_neg hty] at hok
        simp only [Except.ok.injEq, Prod.mk.injEq] at hok
        rw [← hok.2]
        exact Or.inl ⟨rfl, rfl⟩
    | air =>
      rw [hbl] at hok
      simp only [Block.asLiquid, Block.asDisplacer, Block.isLiquidRemovable, Block.isAir,
        Block.hasLiquidDrops, Option.isSome_none, Bool.false_eq_true, false_and, if_false,
        Bool.true_eq_false, and_false, if_true, Except.bind] at hok
      by_cases hc : h.flowCancelled src pos
          (b.withDepth (if falling then b.depth else b.depth - b.spreadDecay) falling)
          Block.air = true
      · rw [if_pos hc] at hok
        simp only [Except.ok.injEq, Prod.mk.injEq] at hok
        rw [← hok.2]
        exact Or.inl ⟨rfl, rfl⟩
      · rw [if_neg hc] at hok
        simp only [Except.ok.injEq, Prod.mk.injEq] at hok
        exact Or.inr ⟨w, Or.inl rfl, rfl, hok.2.symm, hg⟩
    | solid =>
      rw [hbl] at hok
      simp only [Block.asLiquid, Block.asDisplacer, Block.isLiquidRemovable,
        Option.isSome_none, Bool.false_eq_true, false_and, if_false, and_true, if_true] at hok
      simp only [Except.ok.injEq, Prod.mk.injEq] at hok
      rw [← hok.2]
      exact Or.inl ⟨rfl, rfl⟩
    | removable hd bi =>
      rw [hbl] at hok
      simp only [Block.asLiquid, Block.asDisplacer, Block.isLiquidRemovable, Block.isAir,
        Block.hasLiquidDrops, Block.breakDrops, Option.isSome_none, Bool.false_eq_true,
        false_and, if_false, Bool.true_eq_false, and_false, if_true] at hok
      by_cases hc : h.flowCancelled src pos
          (b.withDepth (if falling then b.depth else b.depth - b.spreadDecay) falling)
          (Block.removable hd bi) = true
      · rw [if_pos hc] at hok
        simp only [Except.ok.injEq, Prod.mk.injEq] at hok
        rw [← hok.2]
        exact Or.inl ⟨rfl, rfl⟩
      · rw [if_neg hc] at hok
        cases hd with
        | false =>
          simp only [Bool.false_eq_true, if_false, Except.bind, Except.ok.injEq,
            Prod.mk.injEq] at hok
          exact Or.inr ⟨w.setBlockAir pos, Or.inr rfl, rfl, hok.2.symm, hg⟩
        | true =>
          cases bi with
          | none => exact Except.noConfusion hok
          | some ds =>
            simp only [if_true, Except.bind, Except.ok.injEq, Prod.mk.injEq] at hok
            refine Or.inr ⟨_, Or.inr ?_, ?_, hok.2.symm, hg⟩
            · exact (dropFold_blockAt ds pos (w.setBlockAir pos)).1
            · exact dropFold_layer1 ds pos (w.setBlockAir pos)
    | displacer d =>
      rw [hbl] at hok
      simp only [Block.asLiquid, Block.asDisplacer, Block.isLiquidRemovable,
        Option.isSome_some, true_and, Bool.false_eq_true, false_and, if_false] at hok
      by_cases hql : (w.liquid pos).isSome = true
      · rw [if_pos hql] at hok
        simp only [Except.ok.injEq, Prod.mk.injEq] at hok
        rw [← hok.2]
        exact Or.inl ⟨rfl, rfl⟩
      · rw [if_neg hql] at hok
        by_cases hcd : d.canDisplace
            (b.withDepth (if falling then b.depth else b.depth - b.spreadDecay) falling) = false
        · rw [if_pos (by simp [hcd])] at hok
          simp only [Except.ok.injEq, Prod.mk.injEq] at hok
          rw [← hok.2]
          exact Or.inl ⟨rfl, rfl⟩
        · rw [if_neg (by simp [hcd])] at hok
          by_cases hc : h.flowCancelled src pos
              (b.withDepth (if falling then b.depth else b.depth - b.spreadDecay) falling)
              (Block.displacer d) = true
          · rw [if_pos hc] at hok
            simp only [Except.ok.injEq, Prod.mk.injEq] at hok
            rw [← hok.2]
            exact Or.inl ⟨rfl, rfl⟩
          · rw [if_neg hc] at hok
            simp only [Bool.false_eq_true, if_false, Except.bind, Except.ok.injEq,
              Prod.mk.injEq] at hok
            exact Or.inr ⟨w, Or.inl rfl, rfl, hok.2.symm, hg⟩

/-- `flowInto` only ever returns the fatal error when the target block
declares liquid drops without being breakable. -/
theorem flowInto_error (h : Handler) (b : Liquid) (src pos : Pos) (w : World)
    (falling : Bool) (e : String)
    (herr : flowInto h b src pos w falling = .error e) :
    (w.blockAt pos).hasLiquidDrops = true ∧ (w.blockAt pos).breakDrops = none := by
  simp only [flowInto] at herr
  by_cases hg : (if falling then b.depth else b.depth - b.spreadDecay) ≤ 0 ∧ falling = false
  · rw [if_pos hg] at herr
    exact Except.noConfusion herr
  · rw [if_neg hg] at herr
    cases hbl : w.blockAt pos with
    | liquid ex =>
      rw [hbl] at herr
      simp only [Block.asLiquid] at herr
      by_cases hty : ex.type = b.type
      · rw [if_pos hty] at herr
        by_cases hsat : (if falling then b.depth else b.depth - b.spreadDecay) ≤ ex.depth
            ∨ ex.falling = true
        · rw [if_pos hsat] at herr
          exact Except.noConfusion herr
        · rw [if_neg hsat] at herr
          by_cases hc : h.flowCancelled src pos
              (b.withDepth (if falling then b.depth else b.depth - b.spreadDecay) falling)
              (Block.liquid ex) = true
          · rw [if_pos hc] at herr
            exact Except.noConfusion herr
          · rw [if_neg hc] at herr
            exact Except.noConfusion herr
      · rw [if_neg hty] at herr
        exact Except.noConfusion herr
    | air =>
      rw [hbl] at herr
      simp only [Block.asLiquid, Block.asDisplacer, Block.isLiquidRemovable, Block.isAir,
        Block.hasLiquidDrops, Option.isSome_none, Bool.false_eq_true, false_and, if_false,
        Bool.true_eq_false, and_false, if_true, Except.bind] at herr
      by_cases hc : h.flowCancelled src pos
          (b.withDepth (if falling then b.depth else b.depth - b.spreadDecay) falling)
          Block.air = true
      · rw [if_pos hc] at herr
        exact Except.noConfusion herr
      · rw [if_neg hc] at herr
        exact Except.noConfusion herr
    | solid =>
      rw [hbl] at herr
      simp only [Block.asLiquid, Block.asDisplacer, Block.isLiquidRemovable,
        Option.isSome_none, Bool.false_eq_true, false_and, if_false, and_true, if_true] at herr
      exact Except.noConfusion herr
    | removable hd bi =>
      rw [hbl] at herr
      simp only [Block.asLiquid, Block.asDisplacer, Block.isLiquidRemovable, Block.isAir,
        Block.hasLiquidDrops, Block.breakDrops, Option.isSome_none, Bool.false_eq_true,
        false_and, if_false, Bool.true_eq_false, and_false, if_true] at herr
      by_cases hc : h.flowCancelled src pos
          (b.withDepth (if falling then b.depth else b.depth - b.spreadDecay) falling)
          (Block.removable hd bi) = true
      · rw [if_pos hc] at herr
        exact Except.noConfusion herr
      · rw [if_neg hc] at herr
        cases hd with
        | false =>
          simp only [Bool.false_eq_true, if_false, Except.bind] at herr
          exact Except.noConfusion herr
        | true =>
          cases bi with
          | none => exact ⟨rfl, rfl⟩
          | some ds =>
            simp only [if_true, Except.bind] at herr
            exact Except.noConfusion herr
    | displacer d =>
      rw [hbl] at herr
      simp only [Block.asLiquid, Block.asDisplacer, Block.isLiquidRemovable,
        Option.isSome_some, true_and, Bool.false_eq_true, false_and, if_false] at herr
      by_cases hql : (w.liquid pos).isSome = true
      · rw [if_pos hql] at herr
        exact Except.noConfusion herr
      · rw [if_neg hql] at herr
        by_cases hcd : d.canDisplace
            (b.withDepth (if falling then b.depth else b.depth - b.spreadDecay) falling) = false
        · rw [if_pos (by simp [hcd])] at herr
          exact Except.noConfusion herr
        · rw [if_neg (by simp [hcd])] at herr
          by_cases hc : h.flowCancelled src pos
              (b.withDepth (if falling then b.depth else b.depth - b.spreadDecay) falling)
              (Block.displacer d) = true
          · rw [if_pos hc] at herr
            exact Except.noConfusion herr
          · rw [if_neg hc] at herr
            simp only [Bool.false_eq_true, if_false, Except.bind] at herr
            exact Except.noConfusion herr

/-- `flowInto` only ever writes at its target position: every other
position keeps its block and its liquid. -/
theorem flowInto_locality (h : Handler) (b : Liquid) (src pos : Pos) (w : World)
    (falling : Bool) (r : Bool) (w' : World)
    (hok : flowInto h b src pos w falling = .ok (r, w')) (q : Pos) (hq : q ≠ pos) :
    w'.blockAt q = w.blockAt q ∧ w'.liquid q = w.liquid q := by
  rcases flowInto_master h b src pos w falling r w' hok with ⟨hb, hl⟩ | ⟨w2, hb2, hl2, rfl, -⟩
  · constructor
    · rw [hb]
    · exact liquid_eq_of _ _ q (by rw [hb]) (by rw [hl])
  · have hbq : w2.blockAt q = w.blockAt q := by
      rcases hb2 with hb2 | hb2
      · rw [hb2]
      · rw [hb2]; exact setBlockAir_blockAt_ne _ _ _ hq
    constructor
    · rw [setLiquid_blockAt_ne _ _ _ _ hq, hbq]
    · rw [setLiquid_liquid_ne _ _ _ _ hq]
      exact liquid_eq_of _ _ q hbq (by rw [hl2])

/-- The block after writing a liquid is the written liquid or the old
block (the latter when a displacer keeps its block and stores the liquid
in the extra layer, or at other positions). -/
theorem setLiquid_blockAt_cases (w : World) (p : Pos) (v : Liquid) (q : Pos) :
    (w.setLiquid p (some v)).blockAt q = Block.liquid v
    ∨ (w.setLiquid p (some v)).blockAt q = w.blockAt q := by
  unfold World.setLiquid
  cases hbl : w.blockAt p with
  | displacer d => exact Or.inr rfl
  | air => by_cases hq : q = p <;> simp [hq]
  | solid => by_cases hq : q = p <;> simp [hq]
  | liquid l => by_cases hq : q = p <;> simp [hq]
  | removable hd bi => by_cases hq : q = p <;> simp [hq]

/-- The block after clearing a position is air or the old block. -/
theorem setBlockAir_blockAt_cases (w : World) (p : Pos) (q : Pos) :
    (w.setBlockAir p).blockAt q = Block.air ∨ (w.setBlockAir p).blockAt q = w.blockAt q := by
  unfold World.setBlockAir
  by_cases hq : q = p <;> simp [hq]

/-! ## Claim C10: flow never writes a non-positive depth -/

/-- C10: every liquid value that `flowInto` writes has depth at least 1.
For a non-falling step the computed depth `depth - spreadDecay` is
checked and the call returns without mutation when it is not positive;
a falling step as issued by the tick's vertical call writes the full
depth 8. -/
theorem c10_flow_writes_positive_depth :
    (∀ (h : Handler) (b : Liquid) (src pos : Pos) (w : World) (r : Bool) (w' : World),
      flowInto h b src pos w false = .ok (r, w') →
      ∀ p : Pos, w'.liquid p = w.liquid p ∨ ∃ l, w'.liquid p = some l ∧ 1 ≤ l.depth)
    ∧ (∀ (h : Handler) (b : Liquid) (src pos : Pos) (w : World) (r : Bool) (w' : World),
      flowInto h (b.withDepth 8 true) src pos w true = .ok (r, w') →
      ∀ p : Pos, w'.liquid p = w.liquid p ∨ ∃ l, w'.liquid p = some l ∧ l.depth = 8) := by
  constructor
  · intro h b src pos w r w' hok p
    rcases flowInto_master h b src pos w false r w' hok with ⟨hb, hl⟩ | ⟨w2, hb2, hl2, rfl, hg⟩
    · exact Or.inl (liquid_eq_of _ _ p (by rw [hb]) (by rw [hl]))
    · simp only [Bool.false_eq_true, if_false, and_true, not_le] at hg
      by_cases hp : p = pos
      · subst hp
        refine Or.inr ⟨b.withDepth (b.depth - b.spreadDecay) false, ?_, ?_⟩
        · simpa using setLiquid_liquid_eq w2 p (b.withDepth (b.depth - b.spreadDecay) false)
        · show 1 ≤ b.depth - b.spreadDecay
          omega
      · refine Or.inl ?_
        rw [setLiquid_liquid_ne _ _ _ _ hp]
        have hbq : w2.blockAt p = w.blockAt p := by
          rcases hb2 with hb2 | hb2
          · rw [hb2]
          · rw [hb2]; exact setBlockAir_blockAt_ne _ _ _ hp
        exact liquid_eq_of _ _ p hbq (by rw [hl2])
  · intro h b src pos w r w' hok p
    rcases flowInto_master h (b.withDepth 8 true) src pos w true r w' hok with
      ⟨hb, hl⟩ | ⟨w2, hb2, hl2, rfl, hg⟩
    · exact Or.inl (liquid_eq_of _ _ p (by rw [hb]) (by rw [hl]))
    · by_cases hp : p = pos
      · subst hp
        refine Or.inr ⟨(b.withDepth 8 true).withDepth (b.withDepth 8 true).depth true, ?_, rfl⟩
        simpa using setLiquid_liquid_eq w2 p _
      · refine Or.inl ?_
        rw [setLiquid_liquid_ne _ _ _ _ hp]
        have hbq : w2.blockAt p = w.blockAt p := by
          rcases hb2 with hb2 | hb2
          · rw [hb2]
          · rw [hb2]; exact setBlockAir_blockAt_ne _ _ _ hp
        exact liquid_eq_of _ _ p hbq (by rw [hl2])

/-- C10 witness world: a source next to an open cell. -/
def c10World : World := isolatedWorld (.liquid (water 8 false))

/-- C10 witness: the non-falling conjunct applied to a concrete flow of
a source into adjacent air, which writes depth 7. -/
theorem c10_witness :
    flowInto Handler.none (water 8 false) ⟨0, 0, 0⟩ ⟨1, 0, 0⟩ c10World false =
      .ok (true, c10World.setLiquid ⟨1, 0, 0⟩
        (some ((water 8 false).withDepth ((water 8 false).depth - (water 8 false).spreadDecay) false)))
    ∧ (∀ p : Pos,
        (c10World.setLiquid ⟨1, 0, 0⟩
          (some ((water 8 false).withDepth ((water 8 false).depth - (water 8 false).spreadDecay) false))).liquid p
          = c10World.liquid p
        ∨ ∃ l, (c10World.setLiquid ⟨1, 0, 0⟩
            (some ((water 8 false).withDepth ((water 8 false).depth - (water 8 false).spreadDecay) false))).liquid p
            = some l ∧ 1 ≤ l.depth) :=
  ⟨rfl, c10_flow_writes_positive_depth.1 Handler.none (water 8 false) ⟨0, 0, 0⟩ ⟨1, 0, 0⟩
    c10World true _ rfl⟩

/-! ## Claim C6: different liquid types harden, never merge -/

/-- C6 (amended): a flow step into a cell holding a liquid of a
different type triggers that liquid's hardening reaction, writes no
liquid and reports failure — provided the step passes the initial depth
guard (it is falling, or the computed depth is positive); a non-falling
step whose computed depth is not positive returns failure before the
target is inspected, without hardening. -/
theorem c6_different_type_hardens (h : Handler) (b : Liquid) (src pos : Pos)
    (w : World) (falling : Bool) (ex : Liquid)
    (hliq : w.blockAt pos = .liquid ex) (hty : ¬ex.type = b.type)
    (hguard : falling = true ∨ 0 < b.depth - b.spreadDecay) :
    flowInto h b src pos w falling = .ok (false, ex.harden pos w)
    ∧ (ex.harden pos w).blockAt = w.blockAt
    ∧ (ex.harden pos w).liquid = w.liquid := by
  refine ⟨?_, rfl, rfl⟩
  have hgneg : ¬((if falling then b.depth else b.depth - b.spreadDecay) ≤ 0 ∧ falling = false) := by
    rintro ⟨hle, hff⟩
    subst hff
    simp only [Bool.false_eq_true, if_false] at hle
    rcases hguard with hf | hd
    · exact Bool.noConfusion hf
    · omega
  simp only [flowInto]
  rw [if_neg hgneg, hliq]
  simp only [Block.asLiquid]
  rw [if_neg hty]

/-- A world with a lava cell east of the origin. -/
def c6World : World :=
  { blockAt := fun p => if p = ⟨1, 0, 0⟩ then .liquid (lava 4 false) else .air,
    layer1 := fun _ => none,
    range := ⟨-64, 64⟩,
    dropped := [], hardened := [] }

/-- C6 counterexample: a non-falling flow step of a depth-1 liquid
(computed depth 0) into a different-type liquid reports failure without
triggering the hardening reaction: the depth guard returns first, so the
claim's unconditional "triggers the hardening reaction" fails. -/
theorem c6_counterexample :
    c6World.blockAt ⟨1, 0, 0⟩ = .liquid (lava 4 false)
    ∧ ¬(lava 4 false).type = (water 1 false).type
    ∧ (flowInto Handler.none (water 1 false) ⟨0, 0, 0⟩ ⟨1, 0, 0⟩ c6World false).toOption.map
        (fun r => (r.1, r.2.hardened)) = some (false, [])
    ∧ ((lava 4 false).harden ⟨1, 0, 0⟩ c6World).hardened ≠ ([] : List (Pos × Nat)) :=
  ⟨rfl, by decide, by decide, by decide⟩

/-- C6 witness: the amended theorem applied to a depth-8 water flowing
into lava: hardening is triggered, no write happens, failure reported. -/
theorem c6_witness :
    c6World.blockAt ⟨1, 0, 0⟩ = .liquid (lava 4 false)
    ∧ ¬(lava 4 false).type = (water 8 false).type
    ∧ (0 : Int) < (water 8 false).depth - (water 8 false).spreadDecay
    ∧ (flowInto Handler.none (water 8 false) ⟨0, 0, 0⟩ ⟨1, 0, 0⟩ c6World false =
        .ok (false, (lava 4 false).harden ⟨1, 0, 0⟩ c6World)
      ∧ ((lava 4 false).harden ⟨1, 0, 0⟩ c6World).blockAt = c6World.blockAt
      ∧ ((lava 4 false).harden ⟨1, 0, 0⟩ c6World).liquid = c6World.liquid) :=
  ⟨rfl, by decide, by decide,
    c6_different_type_hardens Handler.none (water 8 false) ⟨0, 0, 0⟩ ⟨1, 0, 0⟩ c6World
      false (lava 4 false) rfl (by decide) (Or.inr (by decide))⟩

/-! ## Claim C5: direct outward fallback spread -/

/-- Lifting `Except.ok` through a bind. -/
theorem exceptOkBind {ε α β : Type} (a : α) (f : α → Except ε β) :
    ((Except.ok a : Except ε α) >>= f) = f a := rfl

/-- An error propagates through a bind. -/
theorem exceptErrBind {ε α β : Type} (e : ε) (f : α → Except ε β) :
    ((Except.error e : Except ε α) >>= f) = Except.error e := rfl

/-- `flowInto` into plain air (with a positive computed depth and no
cancellation) writes exactly the decayed, non-falling liquid. -/
theorem flowInto_air (h : Handler) (b : Liquid) (src pos : Pos) (w : World)
    (hair : w.blockAt pos = .air) (hd : 0 < b.depth - b.spreadDecay)
    (hc : h.flowCancelled src pos (b.withDepth (b.depth - b.spreadDecay) false) .air = false) :
    flowInto h b src pos w false =
      .ok (true, w.setLiquid pos (some (b.withDepth (b.depth - b.spreadDecay) false))) := by
  simp only [flowInto]
  rw [if_neg (by intro hcon; rcases hcon with ⟨hle, -⟩; simp only [Bool.false_eq_true,
    if_false] at hle; omega)]
  rw [hair]
  simp only [Block.asLiquid, Block.asDisplacer, Block.isLiquidRemovable, Block.isAir,
    Block.hasLiquidDrops, Option.isSome_none, Bool.false_eq_true, false_and, if_false,
    Bool.true_eq_false, and_false, if_true, Except.bind]
  rw [if_neg (by simp [hc])]

/-- The block written into air by `flowInto` at the target itself. -/
theorem setLiquid_blockAt_eq_of_air (w : World) (p : Pos) (v : Liquid)
    (hair : w.blockAt p = .air) :
    (w.setLiquid p (some v)).blockAt p = .liquid v := by
  unfold World.setLiquid
  rw [hair]
  simp

/-- One step of the outward spread (the body folded by
`spreadOutwards`). -/
def spreadStep (h : Handler) (b : Liquid) (pos : Pos)
    (displacer : Option DisplacerProps) (wa : World) (n : Pos) : Except String World :=
  if sideClosedOpt displacer pos n then .ok wa
  else (flowInto h b pos n wa false).map Prod.snd

/-- `spreadOutwards` is the fold of `spreadStep` over the four
horizontal neighbours. -/
theorem spreadOutwards_eq_fold (h : Handler) (b : Liquid) (pos : Pos) (w : World)
    (displacer : Option DisplacerProps) :
    spreadOutwards h b pos w displacer =
      (horizontalNeighbours pos).foldlM (spreadStep h b pos displacer) w := rfl

/-- A successful spread step leaves every position other than its target
unchanged. -/
theorem spreadStep_locality (h : Handler) (b : Liquid) (pos : Pos)
    (displacer : Option DisplacerProps) (wa : World) (n : Pos) (w1 : World)
    (hok : spreadStep h b pos displacer wa n = .ok w1) (q : Pos) (hq : q ≠ n) :
    w1.blockAt q = wa.blockAt q ∧ w1.liquid q = wa.liquid q := by
  unfold spreadStep at hok
  split at hok
  · cases hok; exact ⟨rfl, rfl⟩
  · cases hf : flowInto h b pos n wa false with
    | error e => rw [hf] at hok; exact Except.noConfusion hok
    | ok rw1 =>
      rw [hf] at hok
      cases hok
      exact flowInto_locality h b pos n wa false rw1.1 rw1.2 (by rw [hf]) q hq

/-- Locality of the whole outward-spread fold: positions not in the
target list keep their block and liquid. -/
theorem spreadFold_locality (h : Handler) (b : Liquid) (pos : Pos)
    (displacer : Option DisplacerProps) :
    ∀ (ns : List Pos) (w w' : World),
      ns.foldlM (spreadStep h b pos displacer) w = .ok w' →
      ∀ q : Pos, q ∉ ns → w'.blockAt q = w.blockAt q ∧ w'.liquid q = w.liquid q := by
  intro ns
  induction ns with
  | nil =>
    intro w w' hok q _
    cases hok
    exact ⟨rfl, rfl⟩
  | cons n ns ih =>
    intro w w' hok q hq
    rw [List.foldlM_cons] at hok
    cases hstep : spreadStep h b pos displacer w n with
    | error e => rw [hstep, exceptErrBind] at hok; exact Except.noConfusion hok
    | ok w1 =>
      rw [hstep, exceptOkBind] at hok
      have hqn : q ≠ n := fun hqe => hq (hqe ▸ List.mem_cons_self n ns)
      have hqns : q ∉ ns := fun hm => hq (List.mem_cons_of_mem n hm)
      have h1 := spreadStep_locality h b pos displacer w n w1 hstep q hqn
      have h2 := ih w1 w' hok q hqns
      exact ⟨h2.1.trans h1.1, h2.2.trans h1.2⟩

/-- Every air target of the outward-spread fold (with an open interface
and no cancellation) ends up holding the decayed non-falling liquid. -/
theorem spreadFold_air_value (h : Handler) (b : Liquid) (pos : Pos)
    (displacer : Option DisplacerProps) (hd : 0 < b.depth - b.spreadDecay) :
    ∀ (ns : List Pos) (w w' : World), ns.Nodup →
      ns.foldlM (spreadStep h b pos displacer) w = .ok w' →
      ∀ n ∈ ns, w.blockAt n = .air →
        sideClosedOpt displacer pos n = false →
        h.flowCancelled pos n (b.withDepth (b.depth - b.spreadDecay) false) .air = false →
        w'.blockAt n = .liquid (b.withDepth (b.depth - b.spreadDecay) false) := by
  intro ns
  induction ns with
  | nil => intro w w' _ _ n hn; exact absurd hn (List.not_mem_nil n)
  | cons m ns ih =>
    intro w w' hnd hok n hn hair hop hcan
    rw [List.foldlM_cons] at hok
    cases hstep : spreadStep h b pos displacer w m with
    | error e => rw [hstep, exceptErrBind] at hok; exact Except.noConfusion hok
    | ok w1 =>
      rw [hstep, exceptOkBind] at hok
      rcases List.mem_cons.mp hn with rfl | hmem
      · have hw1 : w1 = w.setLiquid n (some (b.withDepth (b.depth - b.spreadDecay) false)) := by
          unfold spreadStep at hstep
          rw [if_neg (by simp [hop])] at hstep
          rw [flowInto_air h b pos n w hair hd hcan] at hstep
          simpa [Except.map] using hstep.symm
        have hnm : n ∉ ns := (List.nodup_cons.mp hnd).1
        have hloc := spreadFold_locality h b pos displacer ns w1 w' hok n hnm
        rw [hloc.1, hw1]
        exact setLiquid_blockAt_eq_of_air w n _ hair
      · have hnm : m ∉ ns := (List.nodup_cons.mp hnd).1
        have hne : n ≠ m := fun he => hnm (he ▸ hmem)
        have hstep1 := spreadStep_locality h b pos displacer w m w1 hstep n hne
        exact ih w1 w' (List.nodup_cons.mp hnd).2 hok n hmem (hstep1.1.trans hair)
          hop hcan

/-- The four horizontal neighbours are pairwise distinct. -/
theorem horizontalNeighbours_nodup (p : Pos) : (horizontalNeighbours p).Nodup := by
  simp only [horizontalNeighbours, List.nodup_cons, List.mem_cons, List.mem_singleton,
    List.not_mem_nil, or_false, List.nodup_nil, and_true, Pos.mk.injEq, not_or]
  simp only [true_and, not_false_eq_true, and_true]
  omega

/-- C5: for a spread-eligible liquid (sustained, not falling, deeper
than its decay, blocked below) for which the path finder returns no
paths, the tick is exactly the direct outward spread into the four
horizontal neighbours; every open-interface air neighbour (absent
cancellation) receives `depth - spreadDecay`, not falling, and every
other position is unchanged. -/
theorem c5_no_paths_fallback (h : Handler) (b : Liquid) (pos : Pos) (w : World)
    (hsust : source b = true ∨ sourceAround b pos w = true)
    (hnf : b.falling = false)
    (hnob : canFlowInto b w pos.below false = false)
    (hdd : b.spreadDecay < b.depth)
    (hnp : calculateLiquidPaths b pos w (displacerAt w pos) = []) :
    tickLiquid h b pos w = spreadOutwards h b pos w (displacerAt w pos)
    ∧ (∀ w', tickLiquid h b pos w = .ok w' →
        (∀ n ∈ horizontalNeighbours pos, w.blockAt n = .air →
          sideClosedOpt (displacerAt w pos) pos n = false →
          h.flowCancelled pos n (b.withDepth (b.depth - b.spreadDecay) false) .air = false →
          w'.blockAt n = .liquid (b.withDepth (b.depth - b.spreadDecay) false))
        ∧ (∀ q : Pos, q ∉ horizontalNeighbours pos →
            w'.blockAt q = w.blockAt q ∧ w'.liquid q = w.liquid q)) := by
  have hcond : ¬(source b = false ∧ sourceAround b pos w = false) := by
    rcases hsust with h1 | h1 <;> simp [h1]
  have htick : tickLiquid h b pos w = spreadOutwards h b pos w (displacerAt w pos) := by
    unfold tickLiquid
    rw [if_neg hcond]
    simp only [hnob, hnf, Bool.false_eq_true, false_and, if_false, and_false, Except.bind,
      or_true, if_true]
    rw [if_neg (show ¬b.depth ≤ b.spreadDecay from by omega), hnp]
  refine ⟨htick, fun w' hok => ?_⟩
  rw [htick, spreadOutwards_eq_fold] at hok
  constructor
  · intro n hn hair hop hcan
    exact spreadFold_air_value h b pos (displacerAt w pos) (by omega)
      (horizontalNeighbours pos) w w' (horizontalNeighbours_nodup pos) hok n hn hair hop hcan
  · intro q hq
    exact spreadFold_locality h b pos (displacerAt w pos) (horizontalNeighbours pos) w w' hok q hq

/-- A flat open plane inside solid walls: a source at the origin over a
closed floor, air in the four horizontal directions. -/
def c5World : World :=
  { blockAt := fun p =>
      if p = ⟨0, 0, 0⟩ then .liquid (water 8 false)
      else if p.y = 0 ∧ -2 < p.x ∧ p.x < 2 ∧ -2 < p.z ∧ p.z < 2 then .air
      else .solid,
    layer1 := fun _ => none,
    range := ⟨-64, 64⟩,
    dropped := [], hardened := [] }

/-- C5 witness: the fallback theorem applied to a flat plane world where
the path search finds no droppable terminal. -/
theorem c5_witness :
    (source (water 8 false) = true ∨ sourceAround (water 8 false) ⟨0, 0, 0⟩ c5World = true)
    ∧ canFlowInto (water 8 false) c5World (Pos.below ⟨0, 0, 0⟩) false = false
    ∧ calculateLiquidPaths (water 8 false) ⟨0, 0, 0⟩ c5World (displacerAt c5World ⟨0, 0, 0⟩) = []
    ∧ (tickLiquid Handler.none (water 8 false) ⟨0, 0, 0⟩ c5World =
        spreadOutwards Handler.none (water 8 false) ⟨0, 0, 0⟩ c5World (displacerAt c5World ⟨0, 0, 0⟩)
      ∧ (∀ w', tickLiquid Handler.none (water 8 false) ⟨0, 0, 0⟩ c5World = .ok w' →
          (∀ n ∈ horizontalNeighbours ⟨0, 0, 0⟩, c5World.blockAt n = .air →
            sideClosedOpt (displacerAt c5World ⟨0, 0, 0⟩) ⟨0, 0, 0⟩ n = false →
            Handler.none.flowCancelled ⟨0, 0, 0⟩ n
              ((water 8 false).withDepth ((water 8 false).depth - (water 8 false).spreadDecay) false)
              .air = false →
            w'.blockAt n =
              .liquid ((water 8 false).withDepth ((water 8 false).depth - (water 8 false).spreadDecay) false))
          ∧ (∀ q : Pos, q ∉ horizontalNeighbours ⟨0, 0, 0⟩ →
              w'.blockAt q = c5World.blockAt q ∧ w'.liquid q = c5World.liquid q))) :=
  ⟨Or.inl (by decide), by decide, by set_option maxRecDepth 100000 in decide,
    c5_no_paths_fallback Handler.none (water 8 false) ⟨0, 0, 0⟩ c5World
      (Or.inl (by decide)) (by decide) (by decide) (by decide)
      (by set_option maxRecDepth 100000 in decide)⟩

/-! ## Claim C7: the only fatal condition -/

/-- A block violating the registry invariant: it declares liquid drops
but is not breakable. -/
def isBadBlock (bl : Block) : Bool := bl.hasLiquidDrops && bl.breakDrops.isNone

/-- A world whose blocks all satisfy the registry invariant. -/
def noBadBlocks (w : World) : Prop := ∀ p : Pos, isBadBlock (w.blockAt p) = false

/-- `flowInto` succeeds (in the `Except` sense) whenever its target is
not an invariant-violating block. -/
theorem flowInto_ok_of_nobad (h : Handler) (b : Liquid) (src pos : Pos) (w : World)
    (falling : Bool) (hnb : isBadBlock (w.blockAt pos) = false) :
    ∃ r, flowInto h b src pos w falling = .ok r := by
  cases hres : flowInto h b src pos w falling with
  | ok r => exact ⟨r, rfl⟩
  | error e =>
    obtain ⟨h1, h2⟩ := flowInto_error h b src pos w falling e hres
    unfold isBadBlock at hnb
    rw [h1, h2] at hnb
    simp at hnb

/-- `flowInto` never creates an invariant-violating block. -/
theorem flowInto_preserves_nobad (h : Handler) (b : Liquid) (src pos : Pos)
    (w : World) (falling : Bool) (r : Bool) (w' : World)
    (hok : flowInto h b src pos w falling = .ok (r, w')) (hnb : noBadBlocks w) :
    noBadBlocks w' := by
  rcases flowInto_master h b src pos w falling r w' hok with ⟨hb, -⟩ | ⟨w2, hb2, -, rfl, -⟩
  · intro p; rw [congrFun hb p]; exact hnb p
  · intro p
    have hw2 : isBadBlock (w2.blockAt p) = false := by
      rcases hb2 with hb2 | hb2
      · rw [congrFun hb2 p]; exact hnb p
      · rw [congrFun hb2 p]
        rcases setBlockAir_blockAt_cases w pos p with hc | hc
        · rw [hc]; rfl
        · rw [hc]; exact hnb p
    rcases setLiquid_blockAt_cases w2 pos _ p with hc | hc
    · rw [hc]; rfl
    · rw [hc]; exact hw2

/-- The outward-spread fold succeeds on invariant-respecting worlds and
preserves the invariant. -/
theorem spreadFold_ok_of_nobad (h : Handler) (b : Liquid) (pos : Pos)
    (displacer : Option DisplacerProps) :
    ∀ (ns : List Pos) (w : World), noBadBlocks w →
      ∃ w', ns.foldlM (spreadStep h b pos displacer) w = .ok w' ∧ noBadBlocks w' := by
  intro ns
  induction ns with
  | nil => intro w hnb; exact ⟨w, rfl, hnb⟩
  | cons n ns ih =>
    intro w hnb
    by_cases hcl : sideClosedOpt displacer pos n = true
    · obtain ⟨w', hfold, hnb'⟩ := ih w hnb
      refine ⟨w', ?_, hnb'⟩
      rw [List.foldlM_cons]
      unfold spreadStep
      rw [if_pos hcl, exceptOkBind]
      exact hfold
    · obtain ⟨⟨r, w1⟩, hflow⟩ := flowInto_ok_of_nobad h b pos n w false (hnb n)
      have hnb1 := flowInto_preserves_nobad h b pos n w false r w1 hflow hnb
      obtain ⟨w', hfold, hnb'⟩ := ih w1 hnb1
      refine ⟨w', ?_, hnb'⟩
      rw [List.foldlM_cons]
      unfold spreadStep
      rw [if_neg hcl, hflow]
      simp only [Except.map, exceptOkBind]
      exact hfold

/-- The path-flood fold succeeds on invariant-respecting worlds and
preserves the invariant. -/
theorem floodFold_ok_of_nobad (h : Handler) (b : Liquid) (pos : Pos) (L : Nat) :
    ∀ (ps : List (List Pos)) (w : World), noBadBlocks w →
      ∃ w', ps.foldlM
          (fun wa p =>
            if p.length ≤ L then
              match p with
              | [] => Except.ok wa
              | q :: _ => (flowInto h b pos q wa false).map Prod.snd
            else Except.ok wa) w = .ok w' ∧ noBadBlocks w' := by
  intro ps
  induction ps with
  | nil => intro w hnb; exact ⟨w, rfl, hnb⟩
  | cons p ps ih =>
    intro w hnb
    by_cases hl : p.length ≤ L
    · cases p with
      | nil =>
        obtain ⟨w', hfold, hnb'⟩ := ih w hnb
        refine ⟨w', ?_, hnb'⟩
        rw [List.foldlM_cons]
        simp only [if_pos hl, exceptOkBind]
        exact hfold
      | cons q qs =>
        obtain ⟨⟨r, w1⟩, hflow⟩ := flowInto_ok_of_nobad h b pos q w false (hnb q)
        have hnb1 := flowInto_preserves_nobad h b pos q w false r w1 hflow hnb
        obtain ⟨w', hfold, hnb'⟩ := ih w1 hnb1
        refine ⟨w', ?_, hnb'⟩
        rw [List.foldlM_cons]
        simp only [if_pos hl, hflow, Except.map, exceptOkBind]
        exact hfold
    · obtain ⟨w', hfold, hnb'⟩ := ih w hnb
      refine ⟨w', ?_, hnb'⟩
      rw [List.foldlM_cons]
      simp only [if_neg hl, exceptOkBind]
      exact hfold

/-- `floodPaths` succeeds on invariant-respecting worlds. -/
theorem floodPaths_ok_of_nobad (h : Handler) (b : Liquid) (pos : Pos)
    (ps : List (List Pos)) (w : World) (hnb : noBadBlocks w) :
    ∃ w', floodPaths h b pos ps w = .ok w' := by
  cases ps with
  | nil => exact ⟨w, rfl⟩
  | cons p0 rest =>
    obtain ⟨w', hfold, -⟩ :=
      floodFold_ok_of_nobad h b pos p0.length (p0 :: rest) w hnb
    exact ⟨w', hfold⟩

/-- The tail of the tick after the vertical step: depth check, spread
condition, path search, flood or outward spread.  It always succeeds on
an invariant-respecting world. -/
theorem tickTail_ok_of_nobad (h : Handler) (b1 : Liquid) (pos : Pos) (w1 : World)
    (displacer : Option DisplacerProps) (C : Prop) [Decidable C] (hnb : noBadBlocks w1) :
    ∃ w', (if b1.depth ≤ b1.spreadDecay then Except.ok w1
           else if C then
            match calculateLiquidPaths b1 pos w1 displacer with
            | [] => spreadOutwards h b1 pos w1 displacer
            | _ :: _ => floodPaths h b1 pos (calculateLiquidPaths b1 pos w1 displacer) w1
           else Except.ok w1) = .ok w' := by
  by_cases hd : b1.depth ≤ b1.spreadDecay
  · rw [if_pos hd]; exact ⟨w1, rfl⟩
  · rw [if_neg hd]
    by_cases hC : C
    · rw [if_pos hC]
      cases hp : calculateLiquidPaths b1 pos w1 displacer with
      | nil =>
        obtain ⟨w', hs, -⟩ := spreadFold_ok_of_nobad h b1 pos displacer
          (horizontalNeighbours pos) w1 hnb
        refine ⟨w', ?_⟩
        show spreadOutwards h b1 pos w1 displacer = .ok w'
        rw [spreadOutwards_eq_fold]
        exact hs
      | cons p0 rest =>
        show ∃ w', floodPaths h b1 pos (p0 :: rest) w1 = .ok w'
        exact floodPaths_ok_of_nobad h b1 pos (p0 :: rest) w1 hnb
    · rw [if_neg hC]; exact ⟨w1, rfl⟩

/-- C7: the engine aborts fatally exactly at the registry invariant
violation: flowing into a block that declares liquid drops but not
breakability panics (first conjunct), and on any world free of such
blocks the whole tick returns successfully — every other negative
outcome is a non-error no-op and no recoverable error exists (second
conjunct). -/
theorem c7_panic_iff_bad_block :
    (∀ (h : Handler) (b : Liquid) (src pos : Pos) (w : World) (falling : Bool),
      w.blockAt pos = .removable true Option.none →
      (falling = true ∨ 0 < b.depth - b.spreadDecay) →
      h.flowCancelled src pos
        (b.withDepth (if falling then b.depth else b.depth - b.spreadDecay) falling)
        (Block.removable true Option.none) = false →
      flowInto h b src pos w falling = .error "liquid drops should always implement breakable")
    ∧ (∀ (h : Handler) (b : Liquid) (pos : Pos) (w : World),
      noBadBlocks w → ∃ w', tickLiquid h b pos w = .ok w') := by
  constructor
  · intro h b src pos w falling hbl hguard hc
    have hgneg : ¬((if falling then b.depth else b.depth - b.spreadDecay) ≤ 0
        ∧ falling = false) := by
      rintro ⟨hle, hff⟩
      subst hff
      simp only [Bool.false_eq_true, if_false] at hle
      rcases hguard with hf | hd
      · exact Bool.noConfusion hf
      · omega
    simp only [flowInto]
    rw [if_neg hgneg, hbl]
    simp only [Block.asLiquid, Block.asDisplacer, Block.isLiquidRemovable, Block.isAir,
      Block.hasLiquidDrops, Block.breakDrops, Option.isSome_none, Bool.false_eq_true,
      false_and, if_false, Bool.true_eq_false, and_false, if_true]
    rw [if_neg (by simp [hc])]
    rfl
  · intro h b pos w hnb
    unfold tickLiquid
    by_cases hcond : source b = false ∧ sourceAround b pos w = false
    · rw [if_pos hcond]
      dsimp only
      split <;> split <;> exact ⟨_, rfl⟩
    · rw [if_neg hcond]
      by_cases hcfb : canFlowInto b w pos.below false = true
      · by_cases hso : sideClosedOpt (displacerAt w pos) pos pos.below = false
        · obtain ⟨⟨r, w1⟩, hflow⟩ :=
            flowInto_ok_of_nobad h (b.withDepth 8 true) pos pos.below w true (hnb pos.below)
          have hnb1 : noBadBlocks w1 :=
            flowInto_preserves_nobad h (b.withDepth 8 true) pos pos.below w true r w1 hflow hnb
          simp only [hcfb, hso, Bool.true_eq_false, and_false, false_and, if_false,
            true_and, if_true, hflow, Except.map, Except.bind, or_false]
          exact tickTail_ok_of_nobad h b pos w1 (displacerAt w pos) _ hnb1
        · have hso' : sideClosedOpt (displacerAt w pos) pos pos.below = true := by
            cases hv : sideClosedOpt (displacerAt w pos) pos pos.below
            · exact absurd hv hso
            · rfl
          simp only [hcfb, hso', Bool.true_eq_false, and_false, false_and, if_false,
            true_and, Bool.true_eq_false, Except.bind, or_false]
          exact tickTail_ok_of_nobad h b pos w (displacerAt w pos) _ hnb
      · have hcfb' : canFlowInto b w pos.below false = false := by
          cases hv : canFlowInto b w pos.below false
          · rfl
          · exact absurd hv hcfb
        simp only [hcfb', Bool.false_eq_true, false_and, and_true, if_false, Except.bind]
        exact tickTail_ok_of_nobad h _ pos w (displacerAt w pos) _ hnb

/-- A world holding a single invariant-violating removable block. -/
def c7BadWorld : World := isolatedWorld (.removable true Option.none)

/-- C7 witness: flowing into the invariant-violating block is the fatal
error, while the tick on an invariant-respecting world returns
successfully. -/
theorem c7_witness :
    c7BadWorld.blockAt ⟨0, 0, 0⟩ = .removable true Option.none
    ∧ flowInto Handler.none (water 8 false) ⟨1, 0, 0⟩ ⟨0, 0, 0⟩ c7BadWorld false =
        .error "liquid drops should always implement breakable"
    ∧ noBadBlocks (isolatedWorld (.liquid (water 5 false)))
    ∧ ∃ w', tickLiquid Handler.none (water 5 false) ⟨0, 0, 0⟩
        (isolatedWorld (.liquid (water 5 false))) = .ok w' := by
  have hnb : noBadBlocks (isolatedWorld (.liquid (water 5 false))) := by
    intro p
    unfold isolatedWorld
    dsimp only
    split <;> rfl
  refine ⟨rfl, ?_, hnb, ?_⟩
  · exact c7_panic_iff_bad_block.1 Handler.none (water 8 false) ⟨1, 0, 0⟩ ⟨0, 0, 0⟩
      c7BadWorld false rfl (Or.inr (by decide)) rfl
  · exact c7_panic_iff_bad_block.2 Handler.none (water 5 false) ⟨0, 0, 0⟩
      (isolatedWorld (.liquid (water 5 false))) hnb

/-! ## Claim C9: termination of the path search -/

/-- Weight of a search node, strictly decreasing along expansions with
positive decay. -/
def nodeWeight (n : liquidNode) : Nat := 4 ^ (n.depth + 3).toNat

/-- Weight of all pending nodes of a queue. -/
def qWeight (q : liquidQueue) : Nat := (q.pending.map nodeWeight).sum

/-- Well-formedness of a queue: the cursor never passes the buffer. -/
def QWF (q : liquidQueue) : Prop := q.i ≤ q.nodes.length

/-- Popping the front of a non-exhausted well-formed queue splits its
pending list. -/
theorem frontPop_pending (q : liquidQueue) (hlen : q.Len ≠ 0) (_hwf : QWF q) :
    q.pending = q.FrontPop.1 :: (q.FrontPop.2).pending
    ∧ QWF q.FrontPop.2 ∧ (q.FrontPop.2).shortestPath = q.shortestPath := by
  have hi : q.i < q.nodes.length := by
    unfold liquidQueue.Len at hlen
    omega
  refine ⟨?_, ?_, rfl⟩
  · show q.nodes.drop q.i = q.nodes.getD q.i (.root 0 0 0) :: q.nodes.drop (q.i + 1)
    rw [List.drop_eq_getElem_cons hi]
    congr 1
    simp [List.getD_eq_getElem?_getD, List.getElem?_eq_getElem hi]
  · show q.i + 1 ≤ q.nodes.length
    omega

/-- Pushing onto a well-formed queue appends to its pending list. -/
theorem pushBack_pending (q : liquidQueue) (n : liquidNode) (hwf : QWF q) :
    (q.PushBack n).pending = q.pending ++ [n] ∧ QWF (q.PushBack n)
    ∧ (q.PushBack n).shortestPath = q.shortestPath := by
  unfold liquidQueue.PushBack liquidQueue.pending QWF
  refine ⟨List.drop_append_of_le_length hwf, ?_, rfl⟩
  simp only [List.length_append, List.length_singleton]
  exact le_trans hwf (by omega)

/-- The queue returned by `spreadNeighbour` is unchanged or, when the
node's depth is above the negative threshold, the input queue with the
node pushed. -/
theorem spreadNeighbour_queue_cases (b : Liquid) (src : Pos) (w : World)
    (n : liquidNode) (q : liquidQueue) :
    (spreadNeighbour b src w n q).2 = q
    ∨ ((spreadNeighbour b src w n q).2 = q.PushBack n ∧ 0 < n.depth + 3) := by
  unfold spreadNeighbour
  by_cases h1 : n.depth + 3 ≤ 0
  · rw [if_pos h1]
    exact Or.inl rfl
  · rw [if_neg h1]
    split
    · exact Or.inl rfl
    · split
      · exact Or.inl rfl
      · split
        · exact Or.inl rfl
        · exact Or.inr ⟨rfl, by omega⟩

/-- One neighbour step keeps the queue well-formed and adds at most the
candidate's weight (nothing at all when the depth threshold fails). -/
theorem processNeighbour_weight (b : Liquid) (pos : Pos) (w : World)
    (displacer : Option DisplacerProps) (first : Bool) (n : liquidNode)
    (st : liquidQueue × List (List Pos)) (hwf : QWF st.1) :
    QWF (processNeighbour b pos w displacer first n st).1
    ∧ qWeight (processNeighbour b pos w displacer first n st).1
        ≤ qWeight st.1 + (if 0 < n.depth + 3 then nodeWeight n else 0) := by
  unfold processNeighbour
  split
  · exact ⟨hwf, Nat.le_add_right _ _⟩
  · rcases hs : spreadNeighbour b pos w n st.1 with ⟨found, q2⟩
    have hcases := spreadNeighbour_queue_cases b pos w n st.1
    rw [hs] at hcases
    dsimp only at hcases
    cases found
    · dsimp only
      rcases hcases with hq | ⟨hq, hd⟩
      · subst hq
        exact ⟨hwf, Nat.le_add_right _ _⟩
      · subst hq
        obtain ⟨hp, hwf2, -⟩ := pushBack_pending st.1 n hwf
        refine ⟨hwf2, ?_⟩
        have heq : qWeight (st.1.PushBack n) = qWeight st.1 + nodeWeight n := by
          unfold qWeight
          rw [hp, List.map_append, List.sum_append]
          simp
        rw [if_pos hd]
        omega
    · dsimp only
      rcases hcases with hq | ⟨hq, hd⟩
      · subst hq
        refine ⟨hwf, ?_⟩
        show qWeight st.1 ≤ _
        exact Nat.le_add_right _ _
      · subst hq
        obtain ⟨hp, hwf2, -⟩ := pushBack_pending st.1 n hwf
        refine ⟨hwf2, ?_⟩
        show qWeight (st.1.PushBack n) ≤ _
        have heq : qWeight (st.1.PushBack n) = qWeight st.1 + nodeWeight n := by
          unfold qWeight
          rw [hp, List.map_append, List.sum_append]
          simp
        rw [if_pos hd]
        omega

/-- One loop iteration on a non-exhausted queue strictly decreases the
total weight (for a positive spread decay) and keeps well-formedness. -/
theorem calcStep_decreases (b : Liquid) (pos : Pos) (w : World)
    (displacer : Option DisplacerProps) (st : CalcSt) (hdec : 1 ≤ b.spreadDecay)
    (hlen : st.queue.Len ≠ 0) (hwf : QWF st.queue) :
    QWF (calcStep b pos w displacer st).queue
    ∧ qWeight (calcStep b pos w displacer st).queue < qWeight st.queue := by
  obtain ⟨hsplit, hwf1, -⟩ := frontPop_pending st.queue hlen hwf
  rcases hfp : st.queue.FrontPop with ⟨node, q1⟩
  rw [hfp] at hsplit hwf1
  dsimp only at hsplit hwf1
  have hq : qWeight st.queue = nodeWeight node + qWeight q1 := by
    unfold qWeight
    rw [hsplit]
    simp
  have hcw : ∀ m : liquidNode, m.depth = node.depth - b.spreadDecay * 2 →
      (if 0 < m.depth + 3 then nodeWeight m else 0) * 4 < nodeWeight node := by
    intro m hm
    by_cases hpos : 0 < m.depth + 3
    · rw [if_pos hpos]
      show nodeWeight m * 4 < nodeWeight node
      unfold nodeWeight
      have h1 : (m.depth + 3).toNat + 2 ≤ (node.depth + 3).toNat := by omega
      have hp4 : 0 < (4 : Nat) ^ (m.depth + 3).toNat := Nat.pow_pos (by norm_num)
      have h2 : (4 : Nat) ^ (m.depth + 3).toNat * 4 < 4 ^ ((m.depth + 3).toNat + 2) := by
        rw [pow_succ, pow_succ]
        nlinarith
      exact lt_of_lt_of_le h2 (Nat.pow_le_pow_right (by norm_num) h1)
    · rw [if_neg hpos]
      show 0 * 4 < nodeWeight node
      unfold nodeWeight
      simp only [Nat.zero_mul]
      exact Nat.pow_pos (by norm_num)
  unfold calcStep
  rw [hfp]
  dsimp only
  rcases hn : node.neighbours (b.spreadDecay * 2) with ⟨na, nb, nc, nd⟩
  dsimp only
  have hda : na.depth = node.depth - b.spreadDecay * 2 := by
    have := congrArg (fun t => t.1.depth) hn
    simpa [liquidNode.neighbours, liquidNode.depth] using this.symm
  have hdb : nb.depth = node.depth - b.spreadDecay * 2 := by
    have := congrArg (fun t => t.2.1.depth) hn
    simpa [liquidNode.neighbours, liquidNode.depth] using this.symm
  have hdc : nc.depth = node.depth - b.spreadDecay * 2 := by
    have := congrArg (fun t => t.2.2.1.depth) hn
    simpa [liquidNode.neighbours, liquidNode.depth] using this.symm
  have hdd : nd.depth = node.depth - b.spreadDecay * 2 := by
    have := congrArg (fun t => t.2.2.2.depth) hn
    simpa [liquidNode.neighbours, liquidNode.depth] using this.symm
  have w1 := processNeighbour_weight b pos w displacer st.first na (q1, st.paths) hwf1
  dsimp only at w1
  have w2 := processNeighbour_weight b pos w displacer st.first nb
    (processNeighbour b pos w displacer st.first na (q1, st.paths)) w1.1
  have w3 := processNeighbour_weight b pos w displacer st.first nc
    (processNeighbour b pos w displacer st.first nb
      (processNeighbour b pos w displacer st.first na (q1, st.paths))) w2.1
  have w4 := processNeighbour_weight b pos w displacer st.first nd
    (processNeighbour b pos w displacer st.first nc
      (processNeighbour b pos w displacer st.first nb
        (processNeighbour b pos w displacer st.first na (q1, st.paths)))) w3.1
  refine ⟨w4.1, ?_⟩
  have hwa := hcw na hda
  have hwb := hcw nb hdb
  have hwc := hcw nc hdc
  have hwd := hcw nd hdd
  omega

/-- The search loop exhausts its queue whenever the fuel exceeds the
initial total weight. -/
theorem calcLoop_exhausts (b : Liquid) (pos : Pos) (w : World)
    (displacer : Option DisplacerProps) (hdec : 1 ≤ b.spreadDecay) :
    ∀ (fuel : Nat) (st : CalcSt), QWF st.queue → qWeight st.queue < fuel →
      (calcLoop b pos w displacer fuel st).queue.Len = 0 := by
  intro fuel
  induction fuel with
  | zero => intro st _ hm; exact absurd hm (Nat.not_lt_zero _)
  | succ f ih =>
    intro st hwf hm
    by_cases hlen : st.queue.Len = 0
    · simp only [calcLoop]
      rw [if_pos hlen]
      exact hlen
    · simp only [calcLoop]
      rw [if_neg hlen]
      obtain ⟨hwf', hdecr⟩ := calcStep_decreases b pos w displacer st hdec hlen hwf
      exact ih _ hwf' (by omega)

/-- C9: for every liquid of the data model (depth at most 8) with
positive spread decay and every grid state, the path search terminates
with the queue exhausted within the engine's fuel bound; each expansion
produces neighbours whose remaining depth is the node's depth decreased
by `2*spreadDecay`, and a node whose depth has fallen to the negative
threshold is never enqueued (its `spreadNeighbour` leaves the queue
untouched and records no path). -/
theorem c9_search_terminates (b : Liquid) (pos : Pos) (w : World)
    (displacer : Option DisplacerProps) (hdec : 1 ≤ b.spreadDecay) (hdep : b.depth ≤ 8) :
    (calculateLiquidPathsFrom liquidQueue.fresh b pos w displacer).queue.Len = 0
    ∧ (∀ node : liquidNode,
        (node.neighbours (b.spreadDecay * 2)).1.depth = node.depth - b.spreadDecay * 2
        ∧ (node.neighbours (b.spreadDecay * 2)).2.1.depth = node.depth - b.spreadDecay * 2
        ∧ (node.neighbours (b.spreadDecay * 2)).2.2.1.depth = node.depth - b.spreadDecay * 2
        ∧ (node.neighbours (b.spreadDecay * 2)).2.2.2.depth = node.depth - b.spreadDecay * 2)
    ∧ (∀ (node : liquidNode) (q : liquidQueue), node.depth + 3 ≤ 0 →
        spreadNeighbour b pos w node q = (false, q)) := by
  refine ⟨?_, fun node => ⟨rfl, rfl, rfl, rfl⟩, fun node q hle => ?_⟩
  · unfold calculateLiquidPathsFrom
    apply calcLoop_exhausts b pos w displacer hdec calcFuel
    · show (0 : Nat) ≤ ([] ++ [liquidNode.root pos.x pos.z b.depth] : List liquidNode).length
      simp
    · show ((([] ++ [liquidNode.root pos.x pos.z b.depth] : List liquidNode).drop 0).map
        nodeWeight).sum < calcFuel
      simp only [List.nil_append, List.drop_zero, List.map_cons, List.map_nil,
        List.sum_cons, List.sum_nil, Nat.add_zero]
      unfold nodeWeight calcFuel
      have h1 : ((liquidNode.root pos.x pos.z b.depth).depth + 3).toNat ≤ 11 := by
        show (b.depth + 3).toNat ≤ 11
        omega
      exact lt_of_le_of_lt (Nat.pow_le_pow_right (by norm_num) h1)
        (Nat.pow_lt_pow_right (by norm_num) (by norm_num))
  · unfold spreadNeighbour
    rw [if_pos hle]

/-- C9 witness: the termination theorem applied to a water source on an
empty world. -/
theorem c9_witness :
    1 ≤ (water 8 false).spreadDecay ∧ (water 8 false).depth ≤ 8
    ∧ (calculateLiquidPathsFrom liquidQueue.fresh (water 8 false) ⟨0, 0, 0⟩
        (isolatedWorld .air) Option.none).queue.Len = 0 :=
  ⟨by decide, by decide,
    (c9_search_terminates (water 8 false) ⟨0, 0, 0⟩ (isolatedWorld .air) Option.none
      (by decide) (by decide)).1⟩

/-! ## Claim C3: equal-minimal-length paths all receive flow -/

/-- The path reconstructed from a node has exactly the node's length. -/
theorem liquidNode.Path_length (src : Pos) : ∀ n : liquidNode,
    (n.Path src).length = n.Len := by
  intro n
  induction n with
  | root x z d => rfl
  | step x z d prev ih =>
    show (prev.Path src ++ [(⟨x, src.y, z⟩ : Pos)]).length = prev.Len + 1
    rw [List.length_append, ih]
    rfl

/-- A terminal `spreadNeighbour` leaves the queue untouched and implies
the node passed the shortest-path bound. -/
theorem spreadNeighbour_true (b : Liquid) (src : Pos) (w : World) (n : liquidNode)
    (q q2 : liquidQueue) (hs : spreadNeighbour b src w n q = (true, q2)) :
    q2 = q ∧ n.Len ≤ q.shortestPath := by
  unfold spreadNeighbour at hs
  by_cases h1 : n.depth + 3 ≤ 0
  · rw [if_pos h1] at hs
    injection hs with hb _
    exact Bool.noConfusion hb
  · rw [if_neg h1] at hs
    by_cases h2 : q.shortestPath < n.Len
    · rw [if_pos h2] at hs
      injection hs with hb _
      exact Bool.noConfusion hb
    · rw [if_neg h2] at hs
      split at hs
      · injection hs with hb _
        exact Bool.noConfusion hb
      · split at hs
        · injection hs with _ hq
          exact ⟨hq.symm, le_of_not_lt h2⟩
        · injection hs with hb _
          exact Bool.noConfusion hb

/-- The four expanded neighbours extend the node's path length by one. -/
theorem neighbours_len (node : liquidNode) (d : Int) :
    (node.neighbours d).1.Len = node.Len + 1
    ∧ (node.neighbours d).2.1.Len = node.Len + 1
    ∧ (node.neighbours d).2.2.1.Len = node.Len + 1
    ∧ (node.neighbours d).2.2.2.Len = node.Len + 1 := ⟨rfl, rfl, rfl, rfl⟩

/-- The search loop invariant: the queue is well-formed, pending nodes
are sorted by path length and span at most two consecutive lengths,
every recorded path has length equal to the current shortest-path bound,
and once a path exists the bound is at most one more than any pending
node's length. -/
def TInv (q : liquidQueue) (paths : List (List Pos)) : Prop :=
  QWF q
  ∧ q.pending.Pairwise (fun a c => a.Len ≤ c.Len)
  ∧ (∀ a ∈ q.pending, ∀ c ∈ q.pending, a.Len ≤ c.Len + 1)
  ∧ (∀ p ∈ paths, p.length = q.shortestPath)
  ∧ (paths ≠ [] → ∀ m ∈ q.pending, q.shortestPath ≤ m.Len + 1)

/-- The invariant inside one iteration, relative to the popped node. -/
def SInv (hn : liquidNode) (q : liquidQueue) (paths : List (List Pos)) : Prop :=
  QWF q
  ∧ q.pending.Pairwise (fun a c => a.Len ≤ c.Len)
  ∧ (∀ m ∈ q.pending, hn.Len ≤ m.Len ∧ m.Len ≤ hn.Len + 1)
  ∧ (∀ p ∈ paths, p.length = q.shortestPath)
  ∧ (paths ≠ [] → q.shortestPath ≤ hn.Len + 1)

/-- Processing one expanded neighbour preserves the per-iteration
invariant. -/
theorem processNeighbour_SInv (b : Liquid) (pos : Pos) (w : World)
    (displacer : Option DisplacerProps) (first : Bool) (hn n : liquidNode)
    (st : liquidQueue × List (List Pos)) (hlen : n.Len = hn.Len + 1)
    (hinv : SInv hn st.1 st.2) :
    SInv hn (processNeighbour b pos w displacer first n st).1
      (processNeighbour b pos w displacer first n st).2 := by
  obtain ⟨hwf, hsort, hwin, hpl, hbd⟩ := hinv
  unfold processNeighbour
  split
  · exact ⟨hwf, hsort, hwin, hpl, hbd⟩
  · rcases hs : spreadNeighbour b pos w n st.1 with ⟨found, q2⟩
    have hcases := spreadNeighbour_queue_cases b pos w n st.1
    rw [hs] at hcases
    dsimp only at hcases
    cases found
    · dsimp only
      rcases hcases with hq | ⟨hq, -⟩
      · subst hq
        exact ⟨hwf, hsort, hwin, hpl, hbd⟩
      · subst hq
        obtain ⟨hp, hwf2, hsp2⟩ := pushBack_pending st.1 n hwf
        refine ⟨hwf2, ?_, ?_, ?_, ?_⟩
        · rw [hp, List.pairwise_append]
          refine ⟨hsort, List.pairwise_singleton _ _, ?_⟩
          intro a ha c hc
          rw [List.mem_singleton] at hc
          subst hc
          rw [hlen]
          exact (hwin a ha).2
        · intro m hm
          rw [hp, List.mem_append, List.mem_singleton] at hm
          rcases hm with hm | rfl
          · exact hwin m hm
          · omega
        · intro p hpp
          rw [hsp2]
          exact hpl p hpp
        · intro hne
          rw [hsp2]
          exact hbd hne
    · dsimp only
      obtain ⟨hq2, hble⟩ := spreadNeighbour_true b pos w n st.1 q2 hs
      subst hq2
      refine ⟨hwf, hsort, hwin, ?_, ?_⟩
      · intro p hpp
        rw [List.mem_append, List.mem_singleton] at hpp
        show p.length = n.Len
        rcases hpp with hpp | rfl
        · have h1 : p.length = st.1.shortestPath := hpl p hpp
          have h2 : st.1.shortestPath ≤ hn.Len + 1 := hbd (by
            intro hemp
            rw [hemp] at hpp
            exact absurd hpp (List.not_mem_nil p))
          omega
        · exact liquidNode.Path_length pos n
      · intro _
        show n.Len ≤ hn.Len + 1
        omega

/-- One loop iteration preserves the search invariant. -/
theorem calcStep_TInv (b : Liquid) (pos : Pos) (w : World)
    (displacer : Option DisplacerProps) (st : CalcSt) (hlen : st.queue.Len ≠ 0)
    (hinv : TInv st.queue st.paths) :
    TInv (calcStep b pos w displacer st).queue (calcStep b pos w displacer st).paths := by
  obtain ⟨hwf, hsort, hspan, hpl, hbd⟩ := hinv
  obtain ⟨hsplit, hwf1, hsp⟩ := frontPop_pending st.queue hlen hwf
  rcases hfp : st.queue.FrontPop with ⟨node, q1⟩
  rw [hfp] at hsplit hwf1 hsp
  dsimp only at hsplit hwf1 hsp
  have hS : SInv node q1 st.paths := by
    refine ⟨hwf1, ?_, ?_, ?_, ?_⟩
    · rw [hsplit] at hsort
      exact (List.pairwise_cons.mp hsort).2
    · intro m hm
      rw [hsplit] at hsort hspan
      constructor
      · exact (List.pairwise_cons.mp hsort).1 m hm
      · exact hspan m (List.mem_cons_of_mem _ hm) node (List.mem_cons_self _ _)
    · intro p hpp
      rw [hsp]
      exact hpl p hpp
    · intro hne
      rw [hsp]
      exact hbd hne node (by rw [hsplit]; exact List.mem_cons_self _ _)
  unfold calcStep
  rw [hfp]
  dsimp only
  rcases hn : node.neighbours (b.spreadDecay * 2) with ⟨na, nb, nc, nd⟩
  dsimp only
  have hlens := neighbours_len node (b.spreadDecay * 2)
  rw [hn] at hlens
  dsimp only at hlens
  have h1 := processNeighbour_SInv b pos w displacer st.first node na (q1, st.paths)
    hlens.1 hS
  have h2 := processNeighbour_SInv b pos w displacer st.first node nb _ hlens.2.1 h1
  have h3 := processNeighbour_SInv b pos w displacer st.first node nc _ hlens.2.2.1 h2
  have h4 := processNeighbour_SInv b pos w displacer st.first node nd _ hlens.2.2.2 h3
  obtain ⟨hwf4, hsort4, hwin4, hpl4, hbd4⟩ := h4
  refine ⟨hwf4, hsort4, ?_, hpl4, ?_⟩
  · intro a ha c hc
    have h5 := (hwin4 a ha).2
    have h6 := (hwin4 c hc).1
    omega
  · intro hne m hm
    have h5 := hbd4 hne
    have h6 := (hwin4 m hm).1
    omega

/-- The whole search loop preserves the invariant. -/
theorem calcLoop_TInv (b : Liquid) (pos : Pos) (w : World)
    (displacer : Option DisplacerProps) :
    ∀ (fuel : Nat) (st : CalcSt), TInv st.queue st.paths →
      TInv (calcLoop b pos w displacer fuel st).queue
        (calcLoop b pos w displacer fuel st).paths := by
  intro fuel
  induction fuel with
  | zero => intro st hinv; exact hinv
  | succ f ih =>
    intro st hinv
    by_cases hlen : st.queue.Len = 0
    · simp only [calcLoop]
      rw [if_pos hlen]
      exact hinv
    · simp only [calcLoop]
      rw [if_neg hlen]
      exact ih _ (calcStep_TInv b pos w displacer st hlen hinv)

/-- All paths returned by the path finder have the same length. -/
theorem calculateLiquidPaths_uniform_length (b : Liquid) (pos : Pos) (w : World)
    (displacer : Option DisplacerProps) :
    ∀ p ∈ calculateLiquidPaths b pos w displacer,
      p.length = (calculateLiquidPathsFrom liquidQueue.fresh b pos w displacer).queue.shortestPath := by
  have hinit : TInv (liquidQueue.fresh.PushBack (.root pos.x pos.z b.depth)) [] := by
    refine ⟨?_, ?_, ?_, ?_, ?_⟩
    · show (0 : Nat) ≤ ([] ++ [liquidNode.root pos.x pos.z b.depth] : List liquidNode).length
      simp
    · show (([] ++ [liquidNode.root pos.x pos.z b.depth] : List liquidNode).drop 0).Pairwise _
      simp only [List.nil_append, List.drop_zero]
      exact List.pairwise_singleton _ _
    · intro a ha c hc
      have ha' : a = liquidNode.root pos.x pos.z b.depth := by
        simpa [liquidQueue.pending, liquidQueue.PushBack, liquidQueue.fresh] using ha
      have hc' : c = liquidNode.root pos.x pos.z b.depth := by
        simpa [liquidQueue.pending, liquidQueue.PushBack, liquidQueue.fresh] using hc
      subst ha'
      subst hc'
      omega
    · intro p hpp
      exact absurd hpp (List.not_mem_nil p)
    · intro hne
      exact absurd rfl hne
  have hfin := calcLoop_TInv b pos w displacer calcFuel
    ⟨liquidQueue.fresh.PushBack (.root pos.x pos.z b.depth), [], true⟩ hinit
  exact hfin.2.2.2.1

/-- Flow into the first step of every path: the spec's description of
the flood once every returned path is known to be of minimal length. -/
def floodFirstSteps (h : Handler) (b : Liquid) (pos : Pos) (paths : List (List Pos))
    (w : World) : Except String World :=
  paths.foldlM
    (fun wa p =>
      match p with
      | [] => Except.ok wa
      | q :: _ => (flowInto h b pos q wa false).map Prod.snd)
    w

/-- When every path is no longer than the first, the tick's flood
segment flows into the first step of every path. -/
theorem floodPaths_all (h : Handler) (b : Liquid) (pos : Pos) (L : Nat) :
    ∀ (ps : List (List Pos)) (w : World), (∀ p ∈ ps, p.length ≤ L) →
      ps.foldlM
        (fun wa p =>
          if p.length ≤ L then
            match p with
            | [] => Except.ok wa
            | q :: _ => (flowInto h b pos q wa false).map Prod.snd
          else Except.ok wa) w
      = floodFirstSteps h b pos ps w := by
  intro ps
  induction ps with
  | nil => intro w _; rfl
  | cons p ps ih =>
    intro w hall
    unfold floodFirstSteps
    rw [List.foldlM_cons, List.foldlM_cons]
    rw [if_pos (hall p (List.mem_cons_self _ _))]
    have hrest : ∀ q ∈ ps, q.length ≤ L := fun q hq => hall q (List.mem_cons_of_mem _ hq)
    cases hstep : (match p with
        | [] => (Except.ok w : Except String World)
        | q :: _ => (flowInto h b pos q w false).map Prod.snd) with
    | error e => rw [exceptErrBind, exceptErrBind]
    | ok w1 =>
      rw [exceptOkBind, exceptOkBind]
      exact ih w1 hrest

/-- The flood segment on a non-empty path list is the bounded fold. -/
theorem floodPaths_cons (h : Handler) (b : Liquid) (pos : Pos) (p0 : List Pos)
    (rest : List (List Pos)) (w : World) :
    floodPaths h b pos (p0 :: rest) w =
      (p0 :: rest).foldlM
        (fun wa p =>
          if p.length ≤ p0.length then
            match p with
            | [] => Except.ok wa
            | q :: _ => (flowInto h b pos q wa false).map Prod.snd
          else Except.ok wa) w := rfl

/-- C3: when the path finder returns a non-empty list of paths, all of
them have the same (hence minimal) length, and the tick's flood segment
executes a flow into exactly the first step of every one of them; no
path of strictly greater length exists or receives flow. -/
theorem c3_minimal_paths_flood (h : Handler) (b : Liquid) (pos : Pos) (w : World)
    (displacer : Option DisplacerProps) (p0 : List Pos) (rest : List (List Pos))
    (hp : calculateLiquidPaths b pos w displacer = p0 :: rest) :
    (∀ p ∈ p0 :: rest, p.length = p0.length)
    ∧ floodPaths h b pos (p0 :: rest) w = floodFirstSteps h b pos (p0 :: rest) w := by
  have huni := calculateLiquidPaths_uniform_length b pos w displacer
  rw [hp] at huni
  have hall : ∀ p ∈ p0 :: rest, p.length = p0.length := by
    intro p hpp
    rw [huni p hpp, huni p0 (List.mem_cons_self _ _)]
  refine ⟨hall, ?_⟩
  rw [floodPaths_cons]
  exact floodPaths_all h b pos p0.length (p0 :: rest) w (fun p hpp => le_of_eq (hall p hpp))

/-- A source over a closed floor with exactly two openings, directly
below its west and east neighbours: the search finds two length-1
paths. -/
def c3World : World :=
  { blockAt := fun p =>
      if p = ⟨0, 0, 0⟩ then .liquid (water 8 false)
      else if p.y = -1 then
        (if p = ⟨1, -1, 0⟩ ∨ p = ⟨-1, -1, 0⟩ then .air else .solid)
      else .air,
    layer1 := fun _ => none,
    range := ⟨-64, 64⟩,
    dropped := [], hardened := [] }

/-- C3 witness: on the two-hole world the search returns two paths of
equal minimal length and the flood flows into both first steps. -/
theorem c3_witness :
    calculateLiquidPaths (water 8 false) ⟨0, 0, 0⟩ c3World Option.none =
      [[⟨-1, 0, 0⟩], [⟨1, 0, 0⟩]]
    ∧ ((∀ p ∈ [[(⟨-1, 0, 0⟩ : Pos)], [⟨1, 0, 0⟩]], p.length = [(⟨-1, 0, 0⟩ : Pos)].length)
      ∧ floodPaths Handler.none (water 8 false) ⟨0, 0, 0⟩ [[⟨-1, 0, 0⟩], [⟨1, 0, 0⟩]] c3World =
          floodFirstSteps Handler.none (water 8 false) ⟨0, 0, 0⟩ [[⟨-1, 0, 0⟩], [⟨1, 0, 0⟩]] c3World) :=
  ⟨by set_option maxRecDepth 100000 in decide,
    c3_minimal_paths_flood Handler.none (water 8 false) ⟨0, 0, 0⟩ c3World Option.none
      [⟨-1, 0, 0⟩] [[⟨1, 0, 0⟩]] (by set_option maxRecDepth 100000 in decide)⟩

end LiquidSpec
